import Mathlib

/-!
Verification of the polymarket-trader decision-and-execution engine.

Shallow embedding of the repository's core: the SQLite-backed position
store, the paper and real executors, the unified execution gateway with
its buy/sell deduplication maps, the arbitrage strategy scanner and the
real-time event reactor.  Numbers are modelled as rationals, timestamps
as integers (milliseconds), and each `await` boundary of the gateway is
modelled by splitting a call into a synchronous entry phase and a
completion phase.
-/

namespace PolyTrader

/-- Trading side of an outcome, `'YES' | 'NO'` in the source. -/
inductive Side
  | yes
  | no
deriving DecidableEq, Repr

/-- Confidence tier, `ConfidenceLevel` in src/types/index.ts. -/
inductive Confidence
  | low
  | standard
  | high
  | arbitrage
deriving DecidableEq, Repr

/-- Position status; `open` is a Lean keyword so the open state is `opened`. -/
inductive PosStatus
  | opened
  | closed
deriving DecidableEq, Repr

/-- Runtime configuration (src/config/index.ts): the risk, sizing and
trading knobs the claims touch. Percent-style values are stored as
fractions exactly as `loadConfig` produces them. -/
structure Config where
  startingBalance : ℚ
  maxPositionPct : ℚ
  maxCategoryPct : ℚ
  minBufferPct : ℚ
  drawdownWarningPct : ℚ
  drawdownHaltPct : ℚ
  minPositionUsd : ℚ
  maxPositionUsd : ℚ
  minMarketLiquidity : ℚ
deriving DecidableEq, Repr

/-- The defaults of the zod env schema in src/config/index.ts. -/
def defaultConfig : Config :=
  { startingBalance := 1000
    maxPositionPct := 10 / 100
    maxCategoryPct := 30 / 100
    minBufferPct := 20 / 100
    drawdownWarningPct := 15 / 100
    drawdownHaltPct := 25 / 100
    minPositionUsd := 10
    maxPositionUsd := 5000
    minMarketLiquidity := 10000 }

/-- Market outcome (src/types/index.ts `Outcome`). -/
structure Outcome where
  id : String
  name : String
  price : ℚ
  tokenId : String
deriving DecidableEq, Repr

/-- Market (src/types/index.ts `Market`), restricted to the fields the
engine reads. -/
structure Market where
  id : String
  question : String
  category : String
  outcomes : List Outcome
  liquidity : ℚ
  volume : ℚ
deriving DecidableEq, Repr

/-- Candidate trade (src/types/index.ts `Opportunity`), with the market
fields the sizer and gateway read inlined. -/
structure Opportunity where
  marketId : String
  category : String
  strategy : String
  side : Side
  outcomeId : String
  entryPrice : ℚ
  estimatedProb : ℚ
  edge : ℚ
  confidence : Confidence
deriving DecidableEq, Repr

/-- A position row of the `positions` table. Ids are modelled as naturals
(the source uses UUIDs; freshness is what matters). -/
structure Position where
  id : Nat
  marketId : String
  category : String
  strategy : String
  side : Side
  outcomeId : String
  entryPrice : ℚ
  currentPrice : ℚ
  size : ℚ
  cost : ℚ
  shares : ℚ
  exitPrice : Option ℚ
  pnl : ℚ
  status : PosStatus
deriving DecidableEq, Repr

/-- A trade row of the `trades` table. -/
structure Trade where
  positionId : Nat
  action : Bool
  price : ℚ
  size : ℚ
  shares : ℚ
  fees : ℚ
  pnl : Option ℚ
deriving DecidableEq, Repr

/-- Strategy allocation row (src/types/index.ts `StrategyAllocation`). -/
structure StrategyAllocation where
  strategy : String
  currentWeight : ℚ
deriving DecidableEq, Repr

namespace SQLiteStore

/-- The persistent store (src/data/sqlite-store.ts `SQLiteStore`):
position rows, trade rows, the allocations table and the id supply. -/
structure Store where
  positions : List Position
  trades : List Trade
  allocations : List StrategyAllocation := []
  nextId : Nat
deriving DecidableEq, Repr

/-- SELECT * FROM allocations. -/
def getAllocations (s : Store) : List StrategyAllocation :=
  s.allocations

/-- The data a caller hands to `createPosition` (the row minus id, pnl
and status). -/
structure NewPosition where
  marketId : String
  category : String
  strategy : String
  side : Side
  outcomeId : String
  entryPrice : ℚ
  currentPrice : ℚ
  size : ℚ
  cost : ℚ
  shares : ℚ
deriving DecidableEq, Repr

/-- SELECT by primary key: the first row with the id. -/
def getPosition (s : Store) (id : Nat) : Option Position :=
  s.positions.find? (fun p => p.id = id)

/-- SELECT * FROM positions WHERE status = 'open'. -/
def getOpenPositions (s : Store) : List Position :=
  s.positions.filter (fun p => p.status = PosStatus.opened)

/-- `createPosition`: INSERT a new row with a fresh id, pnl 0 and status
'open'; returns the created record. -/
def createPosition (s : Store) (np : NewPosition) : Position × Store :=
  let p : Position :=
    { id := s.nextId
      marketId := np.marketId
      category := np.category
      strategy := np.strategy
      side := np.side
      outcomeId := np.outcomeId
      entryPrice := np.entryPrice
      currentPrice := np.currentPrice
      size := np.size
      cost := np.cost
      shares := np.shares
      exitPrice := none
      pnl := 0
      status := PosStatus.opened }
  (p, { s with positions := s.positions ++ [p], nextId := s.nextId + 1 })

/-- Row update of `updatePositionPrice`: set current_price and
pnl = currentPrice * shares - cost on the matching row. -/
def priceUpd (id : Nat) (currentPrice : ℚ) (p : Position) : Position :=
  if p.id = id then
    { p with
      currentPrice := currentPrice
      pnl := currentPrice * p.shares - p.cost }
  else p

/-- `updatePositionPrice`: if the row exists, UPDATE current_price and
pnl; status is untouched. -/
def updatePositionPrice (s : Store) (id : Nat) (currentPrice : ℚ) : Store :=
  match getPosition s id with
  | none => s
  | some _ => { s with positions := s.positions.map (priceUpd id currentPrice) }

/-- Row update of `closePosition`: set status = 'closed', exit_price,
current_price and pnl = exitPrice * shares - cost on the matching row. -/
def closeUpd (id : Nat) (exitPrice : ℚ) (p : Position) : Position :=
  if p.id = id then
    { p with
      status := PosStatus.closed
      exitPrice := some exitPrice
      currentPrice := exitPrice
      pnl := exitPrice * p.shares - p.cost }
  else p

/-- `closePosition`: if the row exists, apply `closeUpd` and return the
re-fetched row. -/
def closePosition (s : Store) (id : Nat) (exitPrice : ℚ) :
    Option Position × Store :=
  match getPosition s id with
  | none => (none, s)
  | some _ =>
      let s2 : Store := { s with positions := s.positions.map (closeUpd id exitPrice) }
      (getPosition s2 id, s2)

/-- `recordTrade`: append-only INSERT into the trades table. -/
def recordTrade (s : Store) (t : Trade) : Store :=
  { s with trades := s.trades ++ [t] }

/-- Every store mutation the engine performs, as a step alphabet. -/
inductive StoreOp
  | create (np : NewPosition)
  | updPrice (id : Nat) (price : ℚ)
  | close (id : Nat) (price : ℚ)
  | record (t : Trade)

/-- One mutation step of the store. -/
def applyOp (s : Store) : StoreOp → Store
  | StoreOp.create np => (createPosition s np).2
  | StoreOp.updPrice id price => updatePositionPrice s id price
  | StoreOp.close id price => (closePosition s id price).2
  | StoreOp.record t => recordTrade s t

/-- Well-formedness: every stored row's id is below the id supply (the
UUID primary key never collides). -/
def WF (s : Store) : Prop :=
  ∀ p ∈ s.positions, p.id < s.nextId

end SQLiteStore

open SQLiteStore

/-- A concrete open position used by the store witness. -/
def posW : Position :=
  { id := 0
    marketId := "m1"
    category := "politics"
    strategy := "value"
    side := Side.yes
    outcomeId := "t1"
    entryPrice := 1/2
    currentPrice := 1/2
    size := 100
    cost := 101
    shares := 200
    exitPrice := none
    pnl := 0
    status := PosStatus.opened }

/-- A concrete one-row store used by the store witness. -/
def storeW : Store :=
  { positions := [posW], trades := [], nextId := 1 }

/-- Derived portfolio snapshot (src/types/index.ts `Portfolio`). -/
structure Portfolio where
  balance : ℚ
  totalValue : ℚ
  startingBalance : ℚ
  totalPnl : ℚ
  openPositions : List Position
  allocations : List StrategyAllocation
  drawdown : ℚ
  drawdownPercent : ℚ
  peakValue : ℚ
deriving DecidableEq, Repr

/-- Result of `canTrade`; the source also carries a human-readable reason
string, elided here. -/
structure CanTradeResult where
  allowed : Bool
deriving DecidableEq, Repr

namespace PaperExecutor

/-- 0.2 percent exchange fee (`SIMULATED_FEE_RATE`). -/
def FEE_RATE : ℚ := 2 / 1000

/-- 2 percent spread simulation (`SIMULATED_SPREAD`). -/
def SPREAD : ℚ := 2 / 100

/-- 0.5 percent slippage (`SIMULATED_SLIPPAGE`). -/
def SLIPPAGE : ℚ := 5 / 1000

/-- The paper executor's in-memory fields: balance, peak value and the
starting balance. -/
structure PaperState where
  balance : ℚ
  peakValue : ℚ
  startingBalance : ℚ
deriving DecidableEq, Repr

/-- `PaperExecutor.getPortfolio`: derive the portfolio from balance and
open positions, raising the stored peak value when total value exceeds
it (the source mutates `this.peakValue`, returned here as the second
component). -/
def getPortfolio (ps : PaperState) (s : Store) : Portfolio × PaperState :=
  let openPositions := getOpenPositions s
  let positionsValue := (openPositions.map (fun p => p.currentPrice * p.shares)).sum
  let totalValue := ps.balance + positionsValue
  let totalPnl := totalValue - ps.startingBalance
  let peak := if totalValue > ps.peakValue then totalValue else ps.peakValue
  let drawdown := peak - totalValue
  let drawdownPercent := if peak > 0 then drawdown / peak * 100 else 0
  ({ balance := ps.balance
     totalValue := totalValue
     startingBalance := ps.startingBalance
     totalPnl := totalPnl
     openPositions := openPositions
     allocations := getAllocations s
     drawdown := drawdown
     drawdownPercent := drawdownPercent
     peakValue := peak },
   { ps with peakValue := peak })

/-- `PaperExecutor.canTrade`: blocked on the drawdown halt or when the
balance is under the minimum buffer fraction of total value. -/
def canTrade (cfg : Config) (ps : PaperState) (s : Store) :
    CanTradeResult × PaperState :=
  let pp := getPortfolio ps s
  if pp.1.drawdownPercent ≥ cfg.drawdownHaltPct * 100 then
    ({ allowed := false }, pp.2)
  else if ps.balance < pp.1.totalValue * cfg.minBufferPct then
    ({ allowed := false }, pp.2)
  else
    ({ allowed := true }, pp.2)

/-- The paper `kellyFractions` table. -/
def kellyFractions : Confidence → ℚ
  | Confidence.low => 15 / 100
  | Confidence.standard => 25 / 100
  | Confidence.high => 40 / 100
  | Confidence.arbitrage => 50 / 100

/-- `PaperExecutor.calculatePositionSize`: Kelly base, tier multiplier,
portfolio-percent cap, strategy-allocation cap, category cap, absolute
USD clamp, cash-buffer clamp, drawdown-warning halving, floor at 0. -/
def calculatePositionSize (cfg : Config) (ps : PaperState) (s : Store)
    (opp : Opportunity) : ℚ :=
  let portfolio := (getPortfolio ps s).1
  if opp.edge ≤ 0 then 0
  else
    let fullKelly := opp.edge / (1 - opp.entryPrice)
    let kellySize := fullKelly * kellyFractions opp.confidence
    let maxPct := min kellySize cfg.maxPositionPct
    let size0 := maxPct * portfolio.totalValue
    let size1 :=
      match portfolio.allocations.find? (fun a => a.strategy = opp.strategy) with
      | none => size0
      | some allocation =>
          let strategyBudget := portfolio.totalValue * allocation.currentWeight
          let currentStrategyValue :=
            ((portfolio.openPositions.filter
              (fun p => p.strategy = opp.strategy)).map (fun p => p.size)).sum
          min size0 (strategyBudget - currentStrategyValue)
    let categoryValue :=
      ((portfolio.openPositions.filter
        (fun p => p.category = opp.category)).map (fun p => p.size)).sum
    let categoryLimit := portfolio.totalValue * cfg.maxCategoryPct
    let size2 := min size1 (categoryLimit - categoryValue)
    let size3 := max cfg.minPositionUsd (min size2 cfg.maxPositionUsd)
    let size4 := min size3 (ps.balance * (95 / 100))
    let size5 :=
      if portfolio.drawdownPercent ≥ cfg.drawdownWarningPct * 100 then
        size4 * (1 / 2)
      else size4
    max 0 size5

/-- `PaperExecutor.executeBuy`: gate on `canTrade` and minimum size,
execute at mid plus spread and slippage capped at 0.99, deduct the gross
size, create the position (cost gross, size net) and record the trade. -/
def executeBuy (cfg : Config) (ps : PaperState) (s : Store)
    (opp : Opportunity) : Option Position × PaperState × Store :=
  let ct := canTrade cfg ps s
  if ct.1.allowed = false then (none, ct.2, s)
  else
    let size := calculatePositionSize cfg ct.2 s opp
    if size < cfg.minPositionUsd then (none, ct.2, s)
    else
      let executionPrice := min (99 / 100) (opp.entryPrice * (1 + SPREAD + SLIPPAGE))
      let fees := size * FEE_RATE
      let netSize := size - fees
      let shares := netSize / executionPrice
      let ps2 : PaperState := { ct.2 with balance := ct.2.balance - size }
      let created := createPosition s
        { marketId := opp.marketId
          category := opp.category
          strategy := opp.strategy
          side := opp.side
          outcomeId := opp.outcomeId
          entryPrice := executionPrice
          currentPrice := executionPrice
          size := netSize
          cost := size
          shares := shares }
      let s3 := recordTrade created.2
        { positionId := created.1.id
          action := true
          price := executionPrice
          size := netSize
          shares := shares
          fees := fees
          pnl := none }
      let ps3 := (getPortfolio ps2 s3).2
      (some created.1, ps3, s3)

/-- `PaperExecutor.executeSell`: module-level `sellingPositions` dedup,
execution at mid minus spread and slippage floored at 0.01, proceeds to
balance, close the position, record the SELL trade. The dedup set is
passed in; the source adds and then always removes the id, so the set is
unchanged on return. -/
def executeSell (sellingPositions : List Nat) (ps : PaperState) (s : Store)
    (position : Position) (currentPrice : ℚ) :
    Option Trade × PaperState × Store :=
  if position.id ∈ sellingPositions then (none, ps, s)
  else
    let executionPrice := max (1 / 100) (currentPrice * (1 - SPREAD - SLIPPAGE))
    let fees := position.shares * executionPrice * FEE_RATE
    let grossProceeds := position.shares * executionPrice
    let netProceeds := grossProceeds - fees
    let pnl := netProceeds - position.size
    let ps1 : PaperState := { ps with balance := ps.balance + netProceeds }
    let s1 := (closePosition s position.id executionPrice).2
    let trade : Trade :=
      { positionId := position.id
        action := false
        price := executionPrice
        size := netProceeds
        shares := position.shares
        fees := fees
        pnl := some pnl }
    let s2 := recordTrade s1 trade
    let ps2 := (getPortfolio ps1 s2).2
    (some trade, ps2, s2)

/-- An arbitrage leg as handed to `executeArbitrageBuy`. -/
structure ArbOutcome where
  name : String
  price : ℚ
  tokenId : String
deriving DecidableEq, Repr

/-- The per-outcome position/trade creation loop of
`PaperExecutor.executeArbitrageBuy`. -/
def createArbLegs (marketId category : String)
    (netInvestment totalInvestment totalCost feeShare : ℚ) (s : Store) :
    List ArbOutcome → List Position × Store
  | [] => ([], s)
  | o :: rest =>
      let outcomeSize := netInvestment * o.price / totalCost
      let outcomeCost := totalInvestment * o.price / totalCost
      let shares := outcomeSize / o.price
      let side := if o.name.toUpper = "YES" then Side.yes else Side.no
      let created := createPosition s
        { marketId := marketId
          category := category
          strategy := "arbitrage"
          side := side
          outcomeId := o.tokenId
          entryPrice := o.price
          currentPrice := o.price
          size := outcomeSize
          cost := outcomeCost
          shares := shares }
      let s2 := recordTrade created.2
        { positionId := created.1.id
          action := true
          price := o.price
          size := outcomeSize
          shares := shares
          fees := feeShare
          pnl := none }
      let restResult := createArbLegs marketId category
        netInvestment totalInvestment totalCost feeShare s2 rest
      (created.1 :: restResult.1, restResult.2)

/-- The sizing cap of `executeArbitrageBuy`: max-position percent of
total value, 90 percent of the balance, and the absolute max. The
source divides the cap by `totalCost`; rational division by zero is 0
here whereas JS would produce Infinity, giving `sets = 0` in both
readings' reject path for degenerate input. -/
def arbMaxSize (cfg : Config) (pf : Portfolio) (balance : ℚ) : ℚ :=
  min (min (pf.totalValue * cfg.maxPositionPct) (balance * (9 / 10)))
    cfg.maxPositionUsd

/-- `PaperExecutor.executeArbitrageBuy` body: gate on `canTrade`, size
the basket to whole outcome-sets under the cap, deduct the gross
investment and create one position per outcome. -/
def executeArbitrageBuy (cfg : Config) (ps : PaperState) (s : Store)
    (marketId category : String) (outcomes : List ArbOutcome)
    (totalCost : ℚ) : List Position × PaperState × Store :=
  let ct := canTrade cfg ps s
  if ct.1.allowed = false then ([], ct.2, s)
  else
    let pp := getPortfolio ct.2 s
    let maxSize := arbMaxSize cfg pp.1 pp.2.balance
    let sets : ℤ := ⌊maxSize / totalCost⌋
    if sets < 1 then ([], pp.2, s)
    else
      let totalInvestment := (sets : ℚ) * totalCost
      let fees := totalInvestment * FEE_RATE
      let netInvestment := totalInvestment - fees
      let ps2 : PaperState := { pp.2 with balance := pp.2.balance - totalInvestment }
      let legs := createArbLegs marketId category
        netInvestment totalInvestment totalCost (fees / (outcomes.length : ℚ)) s outcomes
      let ps3 := (getPortfolio ps2 legs.2).2
      (legs.1, ps3, legs.2)

end PaperExecutor

namespace RealExecutor

/-- 0.2 percent Polymarket fee (`REAL_FEE_RATE`). -/
def FEE_RATE : ℚ := 2 / 1000

/-- The real-money `kellyFractions` table: half the paper fractions. -/
def kellyFractions : Confidence → ℚ
  | Confidence.low => 75 / 1000
  | Confidence.standard => 125 / 1000
  | Confidence.high => 20 / 100
  | Confidence.arbitrage => 25 / 100

/-- `RealExecutor.canTrade`: blocked when not initialised or when the
real balance is under twice the minimum position size. Drawdown is not
consulted. -/
def canTrade (cfg : Config) (isInit : Bool) (realBalance : ℚ) :
    CanTradeResult :=
  if isInit = false then { allowed := false }
  else if realBalance < cfg.minPositionUsd * 2 then { allowed := false }
  else { allowed := true }

/-- `RealExecutor.calculatePositionSize`: Kelly base with the halved
fractions, capped at half the max-position percent of the cached real
balance, clamped to [min, max halved] USD, capped at 80 percent of the
balance, floored at 0. No allocation or category caps and no drawdown
halving. -/
def calculatePositionSize (cfg : Config) (realBalance : ℚ)
    (opp : Opportunity) : ℚ :=
  if opp.edge ≤ 0 then 0
  else
    let fullKelly := opp.edge / (1 - opp.entryPrice)
    let kellySize := fullKelly * kellyFractions opp.confidence
    let maxPct := min kellySize (cfg.maxPositionPct * (1 / 2))
    let size0 := maxPct * realBalance
    let size1 := max cfg.minPositionUsd (min size0 (cfg.maxPositionUsd * (1 / 2)))
    let size2 := min size1 (realBalance * (8 / 10))
    max 0 size2

/-- The drawdown-percent computation of `RealExecutor.getPortfolio`
(peak is first raised to the current total value). -/
def drawdownPercent (peakValue totalValue : ℚ) : ℚ :=
  let peak := if totalValue > peakValue then totalValue else peakValue
  if peak > 0 then (peak - totalValue) / peak * 100 else 0

end RealExecutor

namespace UnifiedExecutor

/-- 5 second cooldown between buys for the same market and side. -/
def BUY_COOLDOWN_MS : ℤ := 5000

/-- The module-level deduplication state of src/core/executor.ts:
`pendingBuys` (buy key to timestamp) and `pendingSells` (position ids). -/
structure GatewayState where
  pendingBuys : List (String × ℤ)
  pendingSells : List Nat
deriving DecidableEq, Repr

/-- The dedup key of a buy, the template string of the source. -/
def buyKey (marketId : String) (side : Side) : String :=
  marketId ++ "|" ++ (match side with | Side.yes => "YES" | Side.no => "NO")

/-- Map.get on `pendingBuys`. -/
def lookupBuy (gs : GatewayState) (k : String) : Option ℤ :=
  (gs.pendingBuys.find? (fun e => decide (e.1 = k))).map (fun e => e.2)

/-- Map.set on `pendingBuys`. -/
def setBuy : List (String × ℤ) → String → ℤ → List (String × ℤ)
  | [], k, t => [(k, t)]
  | (k0, t0) :: rest, k, t =>
      if k0 = k then (k, t) :: rest else (k0, t0) :: setBuy rest k t

/-- Map.delete on `pendingBuys`. -/
def deleteBuy (gs : GatewayState) (k : String) : GatewayState :=
  { gs with pendingBuys := gs.pendingBuys.filter (fun e => decide (e.1 ≠ k)) }

/-- Outcome of the synchronous prefix of `executeBuy`, everything that
runs before the first await: either the call returns null without
dispatching, or it dispatches with the pending mark already set. -/
inductive BuyEntry
  | rejected
  | dispatched (gs : GatewayState)
deriving DecidableEq, Repr

/-- The synchronous prefix of `UnifiedExecutor.executeBuy`: reject when
an open position already exists for (marketId, side); reject when the
cooldown map holds a timestamp younger than 5 seconds; otherwise mark
the key as pending (before any await) and dispatch. A JS falsy
timestamp of exactly 0 would skip the cooldown test in the source; the
model treats a stored 0 like any other time. -/
def executeBuyEntry (gs : GatewayState) (s : Store) (opp : Opportunity)
    (now : ℤ) : BuyEntry :=
  if (getOpenPositions s).any
      (fun p => decide (p.marketId = opp.marketId ∧ p.side = opp.side)) then
    BuyEntry.rejected
  else
    let k := buyKey opp.marketId opp.side
    match lookupBuy gs k with
    | some lastBuy =>
        if now - lastBuy < BUY_COOLDOWN_MS then BuyEntry.rejected
        else BuyEntry.dispatched { gs with pendingBuys := setBuy gs.pendingBuys k now }
    | none => BuyEntry.dispatched { gs with pendingBuys := setBuy gs.pendingBuys k now }

/-- Completion of `executeBuy`: the catch handler deletes the pending
mark only when the inner execution threw; a successful buy leaves the
cooldown standing. -/
def executeBuyFinish (gs : GatewayState) (k : String) (success : Bool) :
    GatewayState :=
  if success then gs else deleteBuy gs k

/-- Outcome of the synchronous prefix of `executeSell`. -/
inductive SellEntry
  | rejected
  | dispatched (gs : GatewayState)
deriving DecidableEq, Repr

/-- The synchronous prefix of `UnifiedExecutor.executeSell`: reject when
a sell for the position id is already in flight, otherwise mark pending
(before any await) and dispatch. -/
def executeSellEntry (gs : GatewayState) (positionId : Nat) : SellEntry :=
  if positionId ∈ gs.pendingSells then SellEntry.rejected
  else SellEntry.dispatched { gs with pendingSells := positionId :: gs.pendingSells }

/-- Completion of `executeSell`: the finally handler always removes the
pending mark, on success and on failure alike. -/
def executeSellFinish (gs : GatewayState) (positionId : Nat) : GatewayState :=
  { gs with pendingSells := gs.pendingSells.filter (fun i => decide (i ≠ positionId)) }

/-- The full paper-mode `executeBuy` path: gateway entry, inner paper
execution (which never throws), completion keeping the cooldown. -/
def executeBuyPaper (cfg : Config) (gs : GatewayState)
    (ps : PaperExecutor.PaperState) (s : Store) (opp : Opportunity)
    (now : ℤ) :
    Option Position × GatewayState × PaperExecutor.PaperState × Store :=
  match executeBuyEntry gs s opp now with
  | BuyEntry.rejected => (none, gs, ps, s)
  | BuyEntry.dispatched gs1 =>
      let r := PaperExecutor.executeBuy cfg ps s opp
      (r.1, executeBuyFinish gs1 (buyKey opp.marketId opp.side) true, r.2.1, r.2.2)

end UnifiedExecutor

/-- The at-most-one-open-position-per-(marketId, side) invariant of the
data model. -/
def AtMostOneOpen (s : Store) : Prop :=
  ∀ p ∈ getOpenPositions s, ∀ q ∈ getOpenPositions s,
    p.marketId = q.marketId → p.side = q.side → p = q

namespace ArbitrageStrategy

/-- Minimum profit percentage to consider, 2 percent. -/
def MIN_PROFIT_PCT : ℚ := 2 / 100

/-- Maximum profit percentage, 15 percent; above is suspicious data. -/
def MAX_PROFIT_PCT : ℚ := 15 / 100

/-- The arbitrage opportunity record emitted by the scanner, restricted
to the numeric fields plus the market reference. -/
structure ArbOpp where
  marketId : String
  totalCost : ℚ
  guaranteedProfit : ℚ
  profitPercent : ℚ
  numOutcomes : Nat
deriving DecidableEq, Repr

/-- `ArbitrageStrategy.checkMarketForArbitrage`: require at least two
outcomes, enough liquidity, all prices strictly inside (0,1), total
cost under 1, and profit percent within the [2, 15] percent band. -/
def checkMarketForArbitrage (cfg : Config) (m : Market) : Option ArbOpp :=
  if m.outcomes.length < 2 then none
  else if m.liquidity < cfg.minMarketLiquidity then none
  else if m.outcomes.any (fun o => decide (o.price ≤ 0 ∨ 1 ≤ o.price)) then none
  else
    let totalCost := (m.outcomes.map (fun o => o.price)).sum
    if 1 ≤ totalCost then none
    else
      let guaranteedProfit := 1 - totalCost
      let profitPercent := guaranteedProfit / totalCost
      if profitPercent < MIN_PROFIT_PCT then none
      else if MAX_PROFIT_PCT < profitPercent then none
      else some
        { marketId := m.id
          totalCost := totalCost
          guaranteedProfit := guaranteedProfit
          profitPercent := profitPercent
          numOutcomes := m.outcomes.length }

/-- Insertion step of the scan's sort by descending profit percent. -/
def insertByProfit (x : ArbOpp) : List ArbOpp → List ArbOpp
  | [] => [x]
  | y :: ys =>
      if y.profitPercent < x.profitPercent then x :: y :: ys
      else y :: insertByProfit x ys

/-- The scan's sort by descending profit percent. -/
def sortByProfit : List ArbOpp → List ArbOpp
  | [] => []
  | x :: xs => insertByProfit x (sortByProfit xs)

/-- `ArbitrageStrategy.scan`: check every market, collect the hits and
sort them by profit percent, highest first. -/
def scan (cfg : Config) (markets : List Market) : List ArbOpp :=
  sortByProfit (markets.filterMap (checkMarketForArbitrage cfg))

end ArbitrageStrategy

namespace EventTrader

/-- 5 percent drop triggers mean-reversion. -/
def PRICE_DROP_THRESHOLD : ℚ := 5 / 100

/-- 5 percent spike on positions triggers exit check. -/
def PRICE_SPIKE_THRESHOLD : ℚ := 5 / 100

/-- 5000 dollars and up triggers instant whale follow. -/
def WHALE_INSTANT_THRESHOLD : ℚ := 5000

/-- Sum under 0.98 triggers instant arbitrage. -/
def ARB_SPREAD_THRESHOLD : ℚ := 98 / 100

/-- 1 minute between price-triggered trades per asset. -/
def PRICE_TRADE_COOLDOWN : ℤ := 60000

/-- 30 seconds between whale-triggered trades per asset. -/
def WHALE_TRADE_COOLDOWN : ℤ := 30000

/-- One recorded price point. -/
structure PricePoint where
  price : ℚ
  timestamp : ℤ
deriving DecidableEq, Repr

/-- Per-asset rolling history (`PriceHistory` of the source). -/
structure PriceHistory where
  prices : List PricePoint
  lastTradeTime : ℤ
deriving DecidableEq, Repr

/-- One outcome entry of a market price map. -/
structure OutcomePrice where
  assetId : String
  price : ℚ
  name : String
deriving DecidableEq, Repr

/-- Per-market price state (`MarketPriceMap` of the source). -/
structure MarketPriceMap where
  marketId : String
  outcomes : List OutcomePrice
  lastArbCheck : ℤ
deriving DecidableEq, Repr

/-- Association list lookup standing in for Map.get. -/
def alookup {α : Type} (l : List (String × α)) (k : String) : Option α :=
  (l.find? (fun e => decide (e.1 = k))).map (fun e => e.2)

/-- Association list update standing in for Map.set. -/
def aset {α : Type} : List (String × α) → String → α → List (String × α)
  | [], k, v => [(k, v)]
  | (k0, v0) :: rest, k, v =>
      if k0 = k then (k, v) :: rest else (k0, v0) :: aset rest k v

/-- The reactor's state (`EventTrader` fields): histories, market maps,
the reverse asset index, whale-follow timestamps, the enabled flag and
the four stat counters. -/
structure ReactorState where
  priceHistory : List (String × PriceHistory)
  marketPrices : List (String × MarketPriceMap)
  assetToMarket : List (String × (Market × Nat))
  lastWhaleFollow : List (String × ℤ)
  enabled : Bool
  statsPriceDropTrades : Nat
  statsWhaleFollowTrades : Nat
  statsArbTrades : Nat
  statsInstantExits : Nat
deriving DecidableEq, Repr

/-- Observable effects of one notification: bookkeeping forwards to the
whale tracker and the dispatches issued to the execution gateway. -/
inductive Signal
  | whaleRecord (assetId : String) (size : ℚ)
  | buyDispatch (strategy : String) (marketId : String) (entryPrice edge : ℚ)
  | arbDispatch (marketId : String) (totalPrice profit : ℚ)
  | sellDispatch (positionId : Nat) (price : ℚ)
deriving DecidableEq, Repr

/-- The awaited executor, abstracted: whether a dispatched buy returns a
position, a dispatched sell returns a trade, and how many positions an
arbitrage buy returns. -/
structure ExecOracle where
  buyOk : Opportunity → Bool
  sellOk : Nat → ℚ → Bool
  arbCount : String → Nat

/-- Does an outcome name contain "yes" case-insensitively, the side test
of the source. -/
def nameHasYes (name : String) : Bool :=
  decide (List.IsInfix "yes".toList name.toLower.toList)

/-- A placeholder outcome for an out-of-range index; the source would
fault there, and the registration loop keeps indexes in range. -/
def dummyOutcome : Outcome :=
  { id := "", name := "", price := 0, tokenId := "" }

/-- `EventTrader.handlePriceDrop`: the mean-reversion buy path, gated by
the per-asset cooldown, extreme-price filter, liquidity floor, history
length, deviation below the rolling mean, and minimum edge. -/
def handlePriceDrop (ex : ExecOracle) (cfg : Config) (s : ReactorState)
    (assetId : String) (currentPrice previousPrice priceChange : ℚ)
    (now : ℤ) : ReactorState × List Signal :=
  let history := alookup s.priceHistory assetId
  let cooldownHit :=
    match history with
    | some h => decide (now - h.lastTradeTime < PRICE_TRADE_COOLDOWN)
    | none => false
  if cooldownHit then (s, [])
  else
    match alookup s.assetToMarket assetId with
    | none => (s, [])
    | some mi =>
        let market := mi.1
        let outcome := (market.outcomes.get? mi.2).getD dummyOutcome
        if currentPrice < 5 / 100 ∨ currentPrice > 95 / 100 then (s, [])
        else if market.liquidity < cfg.minMarketLiquidity then (s, [])
        else
          let recentPrices :=
            match history with
            | some h => h.prices.drop (h.prices.length - 10)
            | none => []
          if recentPrices.length < 3 then (s, [])
          else
            let meanPrice :=
              (recentPrices.map (fun pp => pp.price)).sum / (recentPrices.length : ℚ)
            let deviation := currentPrice - meanPrice
            if deviation > -(3 / 100) then (s, [])
            else
              let estimatedProb := min (9 / 10) (meanPrice + 2 / 100)
              let edge := estimatedProb - currentPrice
              if edge < 3 / 100 then (s, [])
              else
                let opp : Opportunity :=
                  { marketId := market.id
                    category := market.category
                    strategy := "value"
                    side := if nameHasYes outcome.name then Side.yes else Side.no
                    outcomeId := outcome.tokenId
                    entryPrice := currentPrice
                    estimatedProb := estimatedProb
                    edge := edge
                    confidence := if edge ≥ 8 / 100 then Confidence.high
                      else Confidence.standard }
                let ok := ex.buyOk opp
                let s2 :=
                  if ok then
                    { s with
                      priceHistory :=
                        match history with
                        | some h => aset s.priceHistory assetId { h with lastTradeTime := now }
                        | none => s.priceHistory
                      statsPriceDropTrades := s.statsPriceDropTrades + 1 }
                  else s
                (s2, [Signal.buyDispatch "value" market.id currentPrice edge])

/-- `EventTrader.handleWhaleTrade`: the instant whale-follow buy path,
gated by the 30 second per-asset cooldown and the price and liquidity
filters. -/
def handleWhaleTrade (ex : ExecOracle) (cfg : Config) (s : ReactorState)
    (assetId : String) (price size : ℚ) (now : ℤ) :
    ReactorState × List Signal :=
  let lastFollow := (alookup s.lastWhaleFollow assetId).getD 0
  if now - lastFollow < WHALE_TRADE_COOLDOWN then (s, [])
  else
    match alookup s.assetToMarket assetId with
    | none => (s, [])
    | some mi =>
        let market := mi.1
        let outcome := (market.outcomes.get? mi.2).getD dummyOutcome
        if price < 5 / 100 ∨ price > 95 / 100 then (s, [])
        else if market.liquidity < cfg.minMarketLiquidity then (s, [])
        else
          let estimatedProb := min (95 / 100) (price + 8 / 100)
          let edge := estimatedProb - price
          let opp : Opportunity :=
            { marketId := market.id
              category := market.category
              strategy := "whale"
              side := if nameHasYes outcome.name then Side.yes else Side.no
              outcomeId := outcome.tokenId
              entryPrice := price
              estimatedProb := estimatedProb
              edge := edge
              confidence := if size ≥ 10000 then Confidence.high
                else Confidence.standard }
          let ok := ex.buyOk opp
          let s2 :=
            if ok then
              { s with
                lastWhaleFollow := aset s.lastWhaleFollow assetId now
                statsWhaleFollowTrades := s.statsWhaleFollowTrades + 1 }
            else s
          (s2, [Signal.buyDispatch "whale" market.id price edge])

/-- One position of the `checkInstantExit` loop: exit on take-profit at
or above 15 percent, else on extreme price. -/
def instantExitStep (ex : ExecOracle) (assetId : String) (currentPrice : ℚ)
    (acc : Nat × List Signal) (p : Position) : Nat × List Signal :=
  if p.outcomeId ≠ assetId then acc
  else
    let pnlPercent := (currentPrice - p.entryPrice) / p.entryPrice * 100
    let takeProfit := pnlPercent ≥ 15
    let stopLoss := ¬takeProfit ∧ (currentPrice ≥ 97 / 100 ∨ currentPrice ≤ 3 / 100)
    if takeProfit ∨ stopLoss then
      let ok := ex.sellOk p.id currentPrice
      ((if ok then acc.1 + 1 else acc.1), acc.2 ++ [Signal.sellDispatch p.id currentPrice])
    else acc

/-- `EventTrader.checkInstantExit`: walk the open positions on the asset
and dispatch at most one exit per position per call. -/
def checkInstantExit (ex : ExecOracle) (store : Store) (s : ReactorState)
    (assetId : String) (currentPrice : ℚ) : ReactorState × List Signal :=
  let r := (getOpenPositions store).foldl (instantExitStep ex assetId currentPrice) (0, [])
  ({ s with statsInstantExits := s.statsInstantExits + r.1 }, r.2)

/-- `EventTrader.checkArbSpread`: rate-limited to once every 5 seconds
per market; only binary markets; total price strictly between 0.80 and
0.98; profit percent at least 1 percent; both legs strictly inside
(0.02, 0.98). -/
def checkArbSpread (ex : ExecOracle) (s : ReactorState) (market : Market)
    (now : ℤ) : ReactorState × List Signal :=
  match alookup s.marketPrices market.id with
  | none => (s, [])
  | some pm =>
      if now - pm.lastArbCheck < 5000 then (s, [])
      else
        let pm1 := { pm with lastArbCheck := now }
        let s1 := { s with marketPrices := aset s.marketPrices market.id pm1 }
        if pm1.outcomes.length ≠ 2 then (s1, [])
        else
          let totalPrice := (pm1.outcomes.map (fun o => o.price)).sum
          if totalPrice < ARB_SPREAD_THRESHOLD ∧ totalPrice > 8 / 10 then
            let profit := 1 - totalPrice
            let profitPercent := profit / totalPrice
            if profitPercent < 1 / 100 then (s1, [])
            else
              if pm1.outcomes.all
                  (fun o => decide (o.price > 2 / 100 ∧ o.price < 98 / 100)) then
                let n := ex.arbCount market.id
                let s2 :=
                  if n > 0 then { s1 with statsArbTrades := s1.statsArbTrades + 1 }
                  else s1
                (s2, [Signal.arbDispatch market.id totalPrice profit])
              else (s1, [])
          else (s1, [])

/-- A price notification (`PriceUpdate` of the websocket client). -/
structure PriceUpdate where
  assetId : String
  price : ℚ
  timestamp : ℤ
deriving DecidableEq, Repr

/-- A trade notification (`TradeUpdate` of the websocket client); side
true is BUY. -/
structure TradeUpdate where
  assetId : String
  price : ℚ
  size : ℚ
  side : Bool
  timestamp : ℤ
deriving DecidableEq, Repr

/-- `EventTrader.handlePriceUpdate`: when disabled, return immediately;
otherwise append to the rolling history (trimmed to the last 20
points), refresh the owning market's price map, run the drop or spike
path when the move is at least 5 percent, and re-check the owning
market for an arbitrage spread. -/
def handlePriceUpdate (ex : ExecOracle) (cfg : Config) (store : Store)
    (s : ReactorState) (u : PriceUpdate) (now : ℤ) :
    ReactorState × List Signal :=
  if s.enabled = false then (s, [])
  else
    let history :=
      (alookup s.priceHistory u.assetId).getD { prices := [], lastTradeTime := 0 }
    let lastPrice := (history.prices.getLast?).map (fun pp => pp.price)
    let pushed := history.prices ++ [{ price := u.price, timestamp := u.timestamp }]
    let trimmed := if pushed.length > 20 then pushed.drop (pushed.length - 20) else pushed
    let history1 : PriceHistory := { history with prices := trimmed }
    let s1 := { s with priceHistory := aset s.priceHistory u.assetId history1 }
    let marketInfo := alookup s.assetToMarket u.assetId
    let s2 :=
      match marketInfo with
      | none => s1
      | some mi =>
          match alookup s.marketPrices mi.1.id with
          | none => s1
          | some pm =>
              let outs := pm.outcomes.map (fun o =>
                if o.assetId = u.assetId then { o with price := u.price } else o)
              let pm1 : MarketPriceMap := { pm with outcomes := outs }
              { s1 with marketPrices := aset s1.marketPrices mi.1.id pm1 }
    let moveStep :=
      match lastPrice with
      | some lp =>
          if lp > 0 then
            let priceChange := (u.price - lp) / lp
            if priceChange ≤ -PRICE_DROP_THRESHOLD then
              handlePriceDrop ex cfg s2 u.assetId u.price lp priceChange now
            else if priceChange ≥ PRICE_SPIKE_THRESHOLD then
              checkInstantExit ex store s2 u.assetId u.price
            else (s2, [])
          else (s2, [])
      | none => (s2, [])
    match marketInfo with
    | none => moveStep
    | some mi =>
        let arbStep := checkArbSpread ex moveStep.1 mi.1 now
        (arbStep.1, moveStep.2 ++ arbStep.2)

/-- `EventTrader.handleTradeUpdate`: when disabled, return immediately;
otherwise forward trades of 1000 dollars and up to whale aggregation,
and trigger the instant whale follow for buys of 5000 dollars and up. -/
def handleTradeUpdate (ex : ExecOracle) (cfg : Config) (s : ReactorState)
    (u : TradeUpdate) (now : ℤ) : ReactorState × List Signal :=
  if s.enabled = false then (s, [])
  else
    let whaleSignals :=
      if u.size ≥ 1000 then [Signal.whaleRecord u.assetId u.size] else []
    if u.size ≥ WHALE_INSTANT_THRESHOLD ∧ u.side = true then
      let r := handleWhaleTrade ex cfg s u.assetId u.price u.size now
      (r.1, whaleSignals ++ r.2)
    else (s, whaleSignals)

/-- `EventTrader.enable`. -/
def enable (s : ReactorState) : ReactorState := { s with enabled := true }

/-- `EventTrader.disable`. -/
def disable (s : ReactorState) : ReactorState := { s with enabled := false }

/-- `EventTrader.clearHistory`: the only operation that drops history. -/
def clearHistory (s : ReactorState) : ReactorState :=
  { s with priceHistory := [], lastWhaleFollow := [] }

end EventTrader

/-- An empty gateway state for concrete instances. -/
def gsW : UnifiedExecutor.GatewayState :=
  { pendingBuys := [], pendingSells := [] }

/-- An empty store for concrete instances. -/
def emptyStore : Store :=
  { positions := [], trades := [], nextId := 0 }

/-- A concrete value opportunity for concrete instances. -/
def oppW : Opportunity :=
  { marketId := "m1"
    category := "politics"
    strategy := "value"
    side := Side.yes
    outcomeId := "t1"
    entryPrice := 1/2
    estimatedProb := 3/5
    edge := 1/10
    confidence := Confidence.standard }

/-- A trivial executor oracle that fills nothing. -/
def exW : EventTrader.ExecOracle :=
  { buyOk := fun _ => false
    sellOk := fun _ _ => false
    arbCount := fun _ => 0 }

/-- A concrete disabled reactor state with empty bookkeeping. -/
def rsD : EventTrader.ReactorState :=
  { priceHistory := []
    marketPrices := []
    assetToMarket := []
    lastWhaleFollow := []
    enabled := false
    statsPriceDropTrades := 0
    statsWhaleFollowTrades := 0
    statsArbTrades := 0
    statsInstantExits := 0 }

/-- A concrete price notification. -/
def puW : EventTrader.PriceUpdate :=
  { assetId := "a1", price := 1/2, timestamp := 5 }

/-- A concrete whale-sized buy trade notification. -/
def tuW : EventTrader.TradeUpdate :=
  { assetId := "a1", price := 1/2, size := 2000, side := true, timestamp := 5 }

/-- Modelled from the claim sentence of C6: canTrade returns
allowed=false exactly when the drawdown percentage is at or above the
halt threshold, or the cash balance is below the minimum-buffer fraction
of total value (paper mode) or below the absolute minimum balance floor
(real mode). -/
def claimedBlocked (cfg : Config) (paperMode : Bool)
    (ddPct balance totalValue : ℚ) : Prop :=
  ddPct ≥ cfg.drawdownHaltPct * 100 ∨
    (if paperMode then balance < totalValue * cfg.minBufferPct
     else balance < cfg.minPositionUsd * 2)

/-- Modelled from the claim sentence of C5: the single sizing pipeline
it asserts - full Kelly times a tier multiplier, capped by the global
max-position percent of total value, capped by the remaining strategy
allocation budget and the remaining category budget, clamped to the
absolute [min, max] USD bounds, clamped to a fraction of available
cash, halved once drawdown has crossed the warning threshold, floored
at 0. -/
def claimedPositionSize (mult : Confidence → ℚ)
    (cashFraction minUsd maxUsd maxPct catPct warnPct : ℚ)
    (pf : Portfolio) (opp : Opportunity) : ℚ :=
  if opp.edge ≤ 0 then 0
  else
    let kelly := opp.edge / (1 - opp.entryPrice) * mult opp.confidence
    let s0 := min (kelly * pf.totalValue) (maxPct * pf.totalValue)
    let s1 :=
      match pf.allocations.find? (fun a => a.strategy = opp.strategy) with
      | none => s0
      | some a =>
          min s0 (a.currentWeight * pf.totalValue -
            ((pf.openPositions.filter
              (fun p => p.strategy = opp.strategy)).map (fun p => p.size)).sum)
    let s2 := min s1 (catPct * pf.totalValue -
      ((pf.openPositions.filter
        (fun p => p.category = opp.category)).map (fun p => p.size)).sum)
    let s3 := max minUsd (min s2 maxUsd)
    let s4 := min s3 (cashFraction * pf.balance)
    let s5 := if pf.drawdownPercent ≥ warnPct * 100 then s4 / 2 else s4
    max 0 s5

/-- The real-mode sizing pipeline as the amended claim states it: halved
tier multipliers, capped at half the max-position percent of the cached
real balance, clamped to [min, half of max] USD, capped at 80 percent
of the balance, floored at 0 - with no allocation or category caps and
no drawdown halving. -/
def claimedRealPositionSize (cfg : Config) (balance : ℚ)
    (opp : Opportunity) : ℚ :=
  if opp.edge ≤ 0 then 0
  else
    let kelly := opp.edge / (1 - opp.entryPrice) * RealExecutor.kellyFractions opp.confidence
    let s0 := min (kelly * balance) (cfg.maxPositionPct / 2 * balance)
    let s1 := max cfg.minPositionUsd (min s0 (cfg.maxPositionUsd / 2))
    max 0 (min s1 (8/10 * balance))

/-- A paper state at 26 percent drawdown (balance 740, peak 1000). -/
def psEx : PaperExecutor.PaperState :=
  { balance := 740, peakValue := 1000, startingBalance := 1000 }

/-- A portfolio snapshot at 20 percent drawdown with no open positions
and a full allocation for the value strategy. -/
def pfEx : Portfolio :=
  { balance := 1000
    totalValue := 1000
    startingBalance := 1000
    totalPnl := 0
    openPositions := []
    allocations := [{ strategy := "value", currentWeight := 3/10 }]
    drawdown := 250
    drawdownPercent := 20
    peakValue := 1250 }

/-- A concrete reactor market price map: binary market summing to
0.97999, last arbitrage check at time 0. -/
def pmA : EventTrader.MarketPriceMap :=
  { marketId := "m1"
    outcomes :=
      [{ assetId := "tA", price := 1/2, name := "Yes" },
       { assetId := "tB", price := 47999/100000, name := "No" }]
    lastArbCheck := 0 }

/-- A concrete enabled reactor state tracking only `pmA`. -/
def rsA : EventTrader.ReactorState :=
  { priceHistory := []
    marketPrices := [("m1", pmA)]
    assetToMarket := []
    lastWhaleFollow := []
    enabled := true
    statsPriceDropTrades := 0
    statsWhaleFollowTrades := 0
    statsArbTrades := 0
    statsInstantExits := 0 }

/-- A market carrying only the id the spread check reads. -/
def marketA : Market :=
  { id := "m1", question := "q", category := "politics"
    outcomes := [], liquidity := 0, volume := 0 }

/-- A fresh paper state at the default starting balance. -/
def psB : PaperExecutor.PaperState :=
  { balance := 1000, peakValue := 1000, startingBalance := 1000 }

/-- First leg of a market whose outcome names are not YES/NO. -/
def oA : PaperExecutor.ArbOutcome :=
  { name := "A", price := 1/4, tokenId := "tA" }

/-- Second leg with the same name; the side mapping of the source sends
both legs to NO. -/
def oB : PaperExecutor.ArbOutcome :=
  { name := "A", price := 1/4, tokenId := "tB" }

/-- A concrete two-outcome market priced 0.40 and 0.55 (sum 0.95) with
liquidity at the floor, for concrete instances. -/
def marketW : Market :=
  { id := "m1"
    question := "q"
    category := "politics"
    outcomes :=
      [{ id := "o1", name := "Yes", price := 2/5, tokenId := "t1" },
       { id := "o2", name := "No", price := 11/20, tokenId := "t2" }]
    liquidity := 10000
    volume := 0 }

lemma priceUpd_id (id : Nat) (c : ℚ) (p : Position) : (priceUpd id c p).id = p.id := by
  unfold priceUpd; split <;> rfl

lemma closeUpd_id (id : Nat) (c : ℚ) (p : Position) : (closeUpd id c p).id = p.id := by
  unfold closeUpd; split <;> rfl

lemma priceUpd_status (id : Nat) (c : ℚ) (p : Position) :
    (priceUpd id c p).status = p.status := by
  unfold priceUpd; split <;> rfl

lemma closeUpd_status_closed (id : Nat) (c : ℚ) (p : Position)
    (h : p.status = PosStatus.closed) :
    (closeUpd id c p).status = PosStatus.closed := by
  unfold closeUpd; split
  · rfl
  · exact h

lemma find?_map_id_pres (l : List Position) (id : Nat) (f : Position → Position)
    (hf : ∀ p, (f p).id = p.id) :
    (l.map f).find? (fun p => p.id = id) = (l.find? (fun p => p.id = id)).map f := by
  induction l with
  | nil => rfl
  | cons a tl ih =>
      by_cases h : a.id = id
      · rw [List.map_cons,
          List.find?_cons_of_pos _ (by simp [hf, h]),
          List.find?_cons_of_pos _ (by simp [h])]
        rfl
      · rw [List.map_cons,
          List.find?_cons_of_neg _ (by simp [hf, h]),
          List.find?_cons_of_neg _ (by simp [h])]
        exact ih

lemma getPosition_map_eq (s : Store) (id : Nat) (f : Position → Position)
    (hf : ∀ p, (f p).id = p.id) (tr : List Trade)
    (al : List StrategyAllocation) (ni : Nat) :
    getPosition
      { positions := s.positions.map f, trades := tr,
        allocations := al, nextId := ni } id
      = (getPosition s id).map f := by
  unfold getPosition
  exact find?_map_id_pres s.positions id f hf

lemma status_after_op (s : Store) (op : StoreOp) (p : Position)
    (hp : p ∈ s.positions) (hclosed : p.status = PosStatus.closed) :
    ∃ q ∈ (applyOp s op).positions, q.id = p.id ∧ q.status = PosStatus.closed := by
  cases op with
  | create np =>
      exact ⟨p, by simp [applyOp, createPosition, hp], rfl, hclosed⟩
  | updPrice id price =>
      simp only [applyOp, updatePositionPrice]
      cases h : getPosition s id with
      | none => exact ⟨p, hp, rfl, hclosed⟩
      | some q =>
          exact ⟨priceUpd id price p, List.mem_map_of_mem _ hp,
            priceUpd_id id price p,
            (priceUpd_status id price p).trans hclosed⟩
  | close id price =>
      simp only [applyOp, closePosition]
      cases h : getPosition s id with
      | none => exact ⟨p, hp, rfl, hclosed⟩
      | some q =>
          exact ⟨closeUpd id price p, List.mem_map_of_mem _ hp,
            closeUpd_id id price p,
            closeUpd_status_closed id price p hclosed⟩
  | record t =>
      exact ⟨p, by simp [applyOp, recordTrade, hp], rfl, hclosed⟩

lemma wf_after_op (s : Store) (op : StoreOp) (hwf : WF s) :
    WF (applyOp s op) := by
  cases op with
  | create np =>
      intro p hp
      simp only [applyOp, createPosition, List.mem_append, List.mem_singleton] at hp
      rcases hp with hp | hp
      · exact Nat.lt_succ_of_lt (hwf p hp)
      · subst hp; exact Nat.lt_succ_self _
  | updPrice id price =>
      intro p
      simp only [applyOp, updatePositionPrice]
      cases h : getPosition s id with
      | none => exact fun hp => hwf p hp
      | some q =>
          intro hp
          simp only [List.mem_map] at hp
          obtain ⟨r, hr, hrp⟩ := hp
          subst hrp
          simpa [priceUpd_id] using hwf r hr
  | close id price =>
      intro p
      simp only [applyOp, closePosition]
      cases h : getPosition s id with
      | none => exact fun hp => hwf p hp
      | some q =>
          intro hp
          simp only [List.mem_map] at hp
          obtain ⟨r, hr, hrp⟩ := hp
          subst hrp
          simpa [closeUpd_id] using hwf r hr
  | record t =>
      intro p hp
      simp only [applyOp, recordTrade] at hp
      exact hwf p hp

/-- C7: a position closed at exit price p gets stored pnl exactly
p * shares - cost (and is marked closed with that exit price), and no
store mutation (create, price update, close, or trade append) ever
moves a closed position back to open. -/
theorem closed_position_pnl_and_no_reopen
    (s : Store) (id : Nat) (exitPrice : ℚ) (p0 : Position)
    (hfound : getPosition s id = some p0) :
    (∃ q, (closePosition s id exitPrice).1 = some q ∧
      q.pnl = exitPrice * q.shares - q.cost ∧
      q.status = PosStatus.closed ∧
      q.exitPrice = some exitPrice ∧
      q.shares = p0.shares ∧ q.cost = p0.cost) ∧
    (∀ (s2 : Store) (op : StoreOp) (p : Position),
      p ∈ s2.positions → p.status = PosStatus.closed →
      ∃ q ∈ (applyOp s2 op).positions, q.id = p.id ∧ q.status = PosStatus.closed) := by
  constructor
  · have hid : p0.id = id := by
      have h1 := List.find?_some hfound
      simpa using h1
    refine ⟨closeUpd id exitPrice p0, ?_, ?_, ?_, ?_, ?_, ?_⟩
    · show (closePosition s id exitPrice).1 = some (closeUpd id exitPrice p0)
      unfold closePosition
      rw [hfound]
      show getPosition
        { positions := s.positions.map (closeUpd id exitPrice),
          trades := s.trades, allocations := s.allocations,
          nextId := s.nextId } id = _
      rw [getPosition_map_eq s id (closeUpd id exitPrice)
        (closeUpd_id id exitPrice) s.trades s.allocations s.nextId, hfound]
      rfl
    · simp [closeUpd, hid]
    · simp [closeUpd, hid]
    · simp [closeUpd, hid]
    · simp [closeUpd, hid]
    · simp [closeUpd, hid]
  · intro s2 op p hp hcl
    exact status_after_op s2 op p hp hcl

/-- C7 witness: the closed-position pnl law evaluated on a concrete
one-row store. -/
theorem closed_position_pnl_and_no_reopen_witness :
    (∃ q, (SQLiteStore.closePosition storeW 0 (3/5)).1 = some q ∧
      q.pnl = (3/5) * q.shares - q.cost ∧
      q.status = PosStatus.closed ∧
      q.exitPrice = some (3/5) ∧
      q.shares = (200 : ℚ) ∧ q.cost = (101 : ℚ)) := by
  have h := closed_position_pnl_and_no_reopen storeW 0 (3/5) posW rfl
  obtain ⟨⟨q, hq, h1, h2, h3, h4, h5⟩, -⟩ := h
  exact ⟨q, hq, h1, h2, h3, h4.trans rfl, h5.trans rfl⟩

end PolyTrader

namespace PolyTrader

open SQLiteStore UnifiedExecutor

lemma setBuy_find (l : List (String × ℤ)) (k : String) (t : ℤ) :
    (setBuy l k t).find? (fun e => decide (e.1 = k)) = some (k, t) := by
  induction l with
  | nil => simp [setBuy]
  | cons a rest ih =>
      obtain ⟨k0, t0⟩ := a
      by_cases h : k0 = k
      · simp [setBuy, h]
      · simp only [setBuy, if_neg h]
        rw [List.find?_cons_of_neg _ (by simp [h])]
        exact ih

lemma lookupBuy_setBuy (gs : GatewayState) (k : String) (t : ℤ)
    (sells : List Nat) :
    lookupBuy { pendingBuys := setBuy gs.pendingBuys k t, pendingSells := sells } k
      = some t := by
  unfold lookupBuy
  rw [setBuy_find]
  rfl

lemma find_filter_ne (l : List (String × ℤ)) (k : String) :
    (l.filter (fun e => decide (e.1 ≠ k))).find? (fun e => decide (e.1 = k)) = none := by
  induction l with
  | nil => rfl
  | cons a rest ih =>
      obtain ⟨k0, t0⟩ := a
      by_cases h : k0 = k
      · simpa [h] using ih
      · rw [show ((k0, t0) :: rest).filter (fun e => decide (e.1 ≠ k))
            = (k0, t0) :: rest.filter (fun e => decide (e.1 ≠ k)) by simp [h],
          List.find?_cons_of_neg _ (by simp [h])]
        exact ih

/-- C1: a second `executeBuy` for the same (marketId, side) key started
within 5 seconds of a pending or completed first call is rejected
before any dispatch; the cooldown mark is written by the synchronous
entry phase (before the first await); completion clears the mark only
when the inner call threw, so a successful buy leaves it standing; and
a call 5 or more seconds later with no open position for the key
dispatches again. -/
theorem buy_cooldown_dedup (gs : GatewayState) (s : Store)
    (opp : Opportunity) (t0 : ℤ)
    (hnopos : (getOpenPositions s).any
      (fun p => decide (p.marketId = opp.marketId ∧ p.side = opp.side)) = false)
    (hfree : lookupBuy gs (buyKey opp.marketId opp.side) = none) :
    (∃ gs1, executeBuyEntry gs s opp t0 = BuyEntry.dispatched gs1 ∧
       lookupBuy gs1 (buyKey opp.marketId opp.side) = some t0) ∧
    (∀ (gs2 : GatewayState) (s2 : Store) (t1 : ℤ),
       lookupBuy gs2 (buyKey opp.marketId opp.side) = some t0 →
       t1 - t0 < 5000 →
       executeBuyEntry gs2 s2 opp t1 = BuyEntry.rejected) ∧
    (∀ gs2 : GatewayState,
       lookupBuy (executeBuyFinish gs2 (buyKey opp.marketId opp.side) false)
         (buyKey opp.marketId opp.side) = none ∧
       executeBuyFinish gs2 (buyKey opp.marketId opp.side) true = gs2) ∧
    (∀ (gs3 : GatewayState) (s3 : Store) (t2 : ℤ),
       lookupBuy gs3 (buyKey opp.marketId opp.side) = some t0 →
       5000 ≤ t2 - t0 →
       (getOpenPositions s3).any
         (fun p => decide (p.marketId = opp.marketId ∧ p.side = opp.side)) = false →
       ∃ gs4, executeBuyEntry gs3 s3 opp t2 = BuyEntry.dispatched gs4) := by
  refine ⟨?_, ?_, ?_, ?_⟩
  · refine ⟨{ gs with pendingBuys := setBuy gs.pendingBuys (buyKey opp.marketId opp.side) t0 }, ?_, ?_⟩
    · unfold executeBuyEntry
      rw [hnopos]
      simp only [Bool.false_eq_true, if_false]
      rw [hfree]
    · exact lookupBuy_setBuy gs (buyKey opp.marketId opp.side) t0 gs.pendingSells
  · intro gs2 s2 t1 hlook hlt
    unfold executeBuyEntry
    by_cases hany : (getOpenPositions s2).any
      (fun p => decide (p.marketId = opp.marketId ∧ p.side = opp.side)) = true
    · rw [hany]; rfl
    · rw [Bool.not_eq_true] at hany
      rw [hany]
      simp only [Bool.false_eq_true, if_false]
      rw [hlook]
      simp only [BUY_COOLDOWN_MS]
      rw [if_pos hlt]
  · intro gs2
    constructor
    · unfold executeBuyFinish deleteBuy lookupBuy
      simp only [Bool.false_eq_true, if_false]
      rw [find_filter_ne]
      rfl
    · unfold executeBuyFinish
      rfl
  · intro gs3 s3 t2 hlook hge hany
    unfold executeBuyEntry
    rw [hany]
    simp only [Bool.false_eq_true, if_false]
    rw [hlook]
    simp only [BUY_COOLDOWN_MS]
    rw [if_neg (by omega)]
    exact ⟨_, rfl⟩

/-- C1 witness: the buy-dedup theorem at an empty gateway state, empty
store, a concrete opportunity and time 1000. -/
theorem buy_cooldown_dedup_witness :
    (∃ gs1, executeBuyEntry gsW emptyStore oppW 1000 = BuyEntry.dispatched gs1 ∧
       lookupBuy gs1 (buyKey oppW.marketId oppW.side) = some 1000) ∧
    (∀ (gs2 : GatewayState) (s2 : Store) (t1 : ℤ),
       lookupBuy gs2 (buyKey oppW.marketId oppW.side) = some 1000 →
       t1 - 1000 < 5000 →
       executeBuyEntry gs2 s2 oppW t1 = BuyEntry.rejected) ∧
    (∀ gs2 : GatewayState,
       lookupBuy (executeBuyFinish gs2 (buyKey oppW.marketId oppW.side) false)
         (buyKey oppW.marketId oppW.side) = none ∧
       executeBuyFinish gs2 (buyKey oppW.marketId oppW.side) true = gs2) ∧
    (∀ (gs3 : GatewayState) (s3 : Store) (t2 : ℤ),
       lookupBuy gs3 (buyKey oppW.marketId oppW.side) = some 1000 →
       5000 ≤ t2 - 1000 →
       (getOpenPositions s3).any
         (fun p => decide (p.marketId = oppW.marketId ∧ p.side = oppW.side)) = false →
       ∃ gs4, executeBuyEntry gs3 s3 oppW t2 = BuyEntry.dispatched gs4) :=
  buy_cooldown_dedup gsW emptyStore oppW 1000 rfl rfl

/-- C2: a sell on a position id with a sell already in flight is
rejected before any dispatch, so of two concurrent sells on the same id
the one that entered second returns null and only the first can produce
a Trade; the in-flight mark is written by the synchronous entry phase;
completion always clears it (success and failure take the same finally
path), after which a fresh sell on the id dispatches again. -/
theorem sell_inflight_dedup (gs : GatewayState) (pid : Nat)
    (hfree : pid ∉ gs.pendingSells) :
    (∃ gs1, executeSellEntry gs pid = SellEntry.dispatched gs1 ∧
       pid ∈ gs1.pendingSells ∧
       executeSellEntry gs1 pid = SellEntry.rejected) ∧
    (∀ gs2 : GatewayState, pid ∈ gs2.pendingSells →
       executeSellEntry gs2 pid = SellEntry.rejected) ∧
    (∀ gs2 : GatewayState, pid ∉ (executeSellFinish gs2 pid).pendingSells) ∧
    (∀ gs2 : GatewayState, ∃ gs3,
       executeSellEntry (executeSellFinish gs2 pid) pid = SellEntry.dispatched gs3) := by
  refine ⟨?_, ?_, ?_, ?_⟩
  · refine ⟨{ gs with pendingSells := pid :: gs.pendingSells }, ?_, ?_, ?_⟩
    · unfold executeSellEntry
      rw [if_neg hfree]
    · exact List.mem_cons_self pid gs.pendingSells
    · unfold executeSellEntry
      rw [if_pos (List.mem_cons_self pid gs.pendingSells)]
  · intro gs2 hmem
    unfold executeSellEntry
    rw [if_pos hmem]
  · intro gs2
    unfold executeSellFinish
    intro hmem
    rw [List.mem_filter] at hmem
    simp at hmem
  · intro gs2
    have hnot : pid ∉ (executeSellFinish gs2 pid).pendingSells := by
      unfold executeSellFinish
      intro hmem
      rw [List.mem_filter] at hmem
      simp at hmem
    refine ⟨{ executeSellFinish gs2 pid with
      pendingSells := pid :: (executeSellFinish gs2 pid).pendingSells }, ?_⟩
    unfold executeSellEntry
    rw [if_neg hnot]

/-- C4: for a market with at least two outcomes, prices strictly inside
(0,1), liquidity at the floor or above, total cost S under 1 and profit
percent (1-S)/S inside the [2, 15] percent band, the arbitrage scan of
that market emits exactly one opportunity carrying totalCost S and
guaranteedProfit 1-S; and any market whose total cost is at least 1 or
whose profit percent leaves the band yields no opportunity. -/
theorem arbitrage_scan_band (cfg : Config) (m : Market) (S : ℚ)
    (hSdef : (m.outcomes.map (fun o => o.price)).sum = S)
    (h2 : 2 ≤ m.outcomes.length)
    (hliq : cfg.minMarketLiquidity ≤ m.liquidity)
    (hprices : ∀ o ∈ m.outcomes, 0 < o.price ∧ o.price < 1)
    (hS : S < 1)
    (hlo : 2/100 ≤ (1 - S) / S)
    (hhi : (1 - S) / S ≤ 15/100) :
    ArbitrageStrategy.scan cfg [m]
      = [{ marketId := m.id, totalCost := S, guaranteedProfit := 1 - S,
           profitPercent := (1 - S) / S,
           numOutcomes := m.outcomes.length }] ∧
    (∀ m2 : Market,
      (1 ≤ (m2.outcomes.map (fun o => o.price)).sum ∨
        ((m2.outcomes.map (fun o => o.price)).sum < 1 ∧
          ((1 - (m2.outcomes.map (fun o => o.price)).sum) /
              (m2.outcomes.map (fun o => o.price)).sum < 2/100 ∨
            15/100 < (1 - (m2.outcomes.map (fun o => o.price)).sum) /
              (m2.outcomes.map (fun o => o.price)).sum))) →
      ArbitrageStrategy.checkMarketForArbitrage cfg m2 = none) := by
  have hchk : ArbitrageStrategy.checkMarketForArbitrage cfg m
      = some { marketId := m.id, totalCost := S, guaranteedProfit := 1 - S,
               profitPercent := (1 - S) / S, numOutcomes := m.outcomes.length } := by
    unfold ArbitrageStrategy.checkMarketForArbitrage
    rw [hSdef]
    rw [if_neg (by omega)]
    rw [if_neg (not_lt.mpr hliq)]
    rw [if_neg ?hany]
    case hany =>
      intro htrue
      rw [List.any_eq_true] at htrue
      obtain ⟨o, ho, hbad⟩ := htrue
      rw [decide_eq_true_eq] at hbad
      obtain ⟨h1, h2⟩ := hprices o ho
      rcases hbad with hb | hb
      · exact absurd h1 (not_lt.mpr hb)
      · exact absurd h2 (not_lt.mpr hb)
    rw [if_neg (not_le.mpr hS)]
    simp only [ArbitrageStrategy.MIN_PROFIT_PCT, ArbitrageStrategy.MAX_PROFIT_PCT]
    rw [if_neg (not_lt.mpr hlo)]
    rw [if_neg (not_lt.mpr hhi)]
  constructor
  · unfold ArbitrageStrategy.scan
    rw [show [m].filterMap (ArbitrageStrategy.checkMarketForArbitrage cfg)
        = [{ marketId := m.id, totalCost := S, guaranteedProfit := 1 - S,
             profitPercent := (1 - S) / S,
             numOutcomes := m.outcomes.length }] by
      simp [List.filterMap_cons, hchk]]
    rfl
  · intro m2 hbad
    unfold ArbitrageStrategy.checkMarketForArbitrage
    by_cases g1 : m2.outcomes.length < 2
    · rw [if_pos g1]
    rw [if_neg g1]
    by_cases g2 : m2.liquidity < cfg.minMarketLiquidity
    · rw [if_pos g2]
    rw [if_neg g2]
    by_cases g3 : m2.outcomes.any (fun o => decide (o.price ≤ 0 ∨ 1 ≤ o.price)) = true
    · rw [if_pos g3]
    rw [if_neg g3]
    by_cases g4 : 1 ≤ (m2.outcomes.map (fun o => o.price)).sum
    · rw [if_pos g4]
    rw [if_neg g4]
    rcases hbad with hge | ⟨-, hband⟩
    · exact absurd hge g4
    rcases hband with hlow | hhigh
    · rw [if_pos (by
        show (1 - (m2.outcomes.map (fun o => o.price)).sum) /
          (m2.outcomes.map (fun o => o.price)).sum < ArbitrageStrategy.MIN_PROFIT_PCT
        unfold ArbitrageStrategy.MIN_PROFIT_PCT
        exact hlow)]
    · by_cases g5 : (1 - (m2.outcomes.map (fun o => o.price)).sum) /
          (m2.outcomes.map (fun o => o.price)).sum < ArbitrageStrategy.MIN_PROFIT_PCT
      · rw [if_pos g5]
      · rw [if_neg g5]
        rw [if_pos (by
          show ArbitrageStrategy.MAX_PROFIT_PCT < (1 - (m2.outcomes.map (fun o => o.price)).sum) /
            (m2.outcomes.map (fun o => o.price)).sum
          unfold ArbitrageStrategy.MAX_PROFIT_PCT
          exact hhigh)]

/-- C4 witness: the scan-band theorem at the concrete market priced
0.40 and 0.55 with liquidity 10000 under the default configuration. -/
theorem arbitrage_scan_band_witness :
    ArbitrageStrategy.scan defaultConfig [marketW]
      = [{ marketId := marketW.id, totalCost := 19/20,
           guaranteedProfit := 1 - 19/20,
           profitPercent := (1 - 19/20) / (19/20),
           numOutcomes := marketW.outcomes.length }] ∧
    (∀ m2 : Market,
      (1 ≤ (m2.outcomes.map (fun o => o.price)).sum ∨
        ((m2.outcomes.map (fun o => o.price)).sum < 1 ∧
          ((1 - (m2.outcomes.map (fun o => o.price)).sum) /
              (m2.outcomes.map (fun o => o.price)).sum < 2/100 ∨
            15/100 < (1 - (m2.outcomes.map (fun o => o.price)).sum) /
              (m2.outcomes.map (fun o => o.price)).sum))) →
      ArbitrageStrategy.checkMarketForArbitrage defaultConfig m2 = none) :=
  arbitrage_scan_band defaultConfig marketW (19/20)
    (by simp [marketW]; norm_num)
    (by simp [marketW])
    (by norm_num [defaultConfig, marketW])
    (by intro o ho; simp [marketW] at ho; rcases ho with h | h <;> subst h <;> norm_num)
    (by norm_num)
    (by norm_num)
    (by norm_num)

/-- C2 witness: the sell-dedup theorem at an empty gateway state and
position id 7. -/
theorem sell_inflight_dedup_witness :
    (∃ gs1, executeSellEntry gsW 7 = SellEntry.dispatched gs1 ∧
       7 ∈ gs1.pendingSells ∧
       executeSellEntry gs1 7 = SellEntry.rejected) ∧
    (∀ gs2 : GatewayState, 7 ∈ gs2.pendingSells →
       executeSellEntry gs2 7 = SellEntry.rejected) ∧
    (∀ gs2 : GatewayState, 7 ∉ (executeSellFinish gs2 7).pendingSells) ∧
    (∀ gs2 : GatewayState, ∃ gs3,
       executeSellEntry (executeSellFinish gs2 7) 7 = SellEntry.dispatched gs3) :=
  sell_inflight_dedup gsW 7 (by simp [gsW])

end PolyTrader

namespace PolyTrader

open SQLiteStore EventTrader

/-- C9 counterexample: on a disabled reactor, a price notification does
not append to the rolling price history (the history stays empty and
unchanged) and a 2000 dollar trade notification is not forwarded to
whale aggregation (no signal is emitted), contradicting the claim that
bookkeeping continues while disabled. -/
theorem reactor_disabled_drops_bookkeeping :
    (handlePriceUpdate exW defaultConfig emptyStore rsD puW 5).1 = rsD ∧
    (handlePriceUpdate exW defaultConfig emptyStore rsD puW 5).2 = [] ∧
    alookup (handlePriceUpdate exW defaultConfig emptyStore rsD puW 5).1.priceHistory
      "a1" = none ∧
    (handleTradeUpdate exW defaultConfig rsD tuW 5).1 = rsD ∧
    (handleTradeUpdate exW defaultConfig rsD tuW 5).2 = [] :=
  ⟨rfl, rfl, rfl, rfl, rfl⟩

/-- C9 amended: while the reactor is disabled, price and trade
notifications are dropped whole, bookkeeping included (no history
append, no whale forwarding, no state change); history accumulated
before disabling is preserved: enable and disable only toggle the flag
and never touch the stored histories. -/
theorem reactor_disable_semantics (ex : ExecOracle) (cfg : Config)
    (store : Store) (s : ReactorState) (u : PriceUpdate)
    (tu : TradeUpdate) (now tnow : ℤ)
    (hdis : s.enabled = false) :
    handlePriceUpdate ex cfg store s u now = (s, []) ∧
    handleTradeUpdate ex cfg s tu tnow = (s, []) ∧
    (∀ s2 : ReactorState,
      (disable s2).priceHistory = s2.priceHistory ∧
      (disable s2).lastWhaleFollow = s2.lastWhaleFollow ∧
      (disable s2).marketPrices = s2.marketPrices ∧
      (enable s2).priceHistory = s2.priceHistory ∧
      (enable s2).lastWhaleFollow = s2.lastWhaleFollow ∧
      (enable s2).marketPrices = s2.marketPrices) := by
  refine ⟨?_, ?_, ?_⟩
  · unfold handlePriceUpdate
    rw [hdis]
    rfl
  · unfold handleTradeUpdate
    rw [hdis]
    rfl
  · intro s2
    exact ⟨rfl, rfl, rfl, rfl, rfl, rfl⟩

/-- C9 amended witness: the disable semantics at the concrete disabled
reactor state. -/
theorem reactor_disable_semantics_witness :
    handlePriceUpdate exW defaultConfig emptyStore rsD puW 5 = (rsD, []) ∧
    handleTradeUpdate exW defaultConfig rsD tuW 5 = (rsD, []) ∧
    (∀ s2 : ReactorState,
      (disable s2).priceHistory = s2.priceHistory ∧
      (disable s2).lastWhaleFollow = s2.lastWhaleFollow ∧
      (disable s2).marketPrices = s2.marketPrices ∧
      (enable s2).priceHistory = s2.priceHistory ∧
      (enable s2).lastWhaleFollow = s2.lastWhaleFollow ∧
      (enable s2).marketPrices = s2.marketPrices) :=
  reactor_disable_semantics exW defaultConfig emptyStore rsD puW tuW 5 5 rfl

end PolyTrader

namespace PolyTrader

open SQLiteStore EventTrader

lemma checkArbSpread_signals (ex : ExecOracle) (s : ReactorState)
    (market : Market) (now : ℤ) (pm : MarketPriceMap)
    (hpm : alookup s.marketPrices market.id = some pm) :
    (checkArbSpread ex s market now).2
      = if 5000 ≤ now - pm.lastArbCheck ∧ pm.outcomes.length = 2 ∧
            (pm.outcomes.map (fun o => o.price)).sum < 98/100 ∧
            8/10 < (pm.outcomes.map (fun o => o.price)).sum ∧
            1/100 ≤ (1 - (pm.outcomes.map (fun o => o.price)).sum) /
              (pm.outcomes.map (fun o => o.price)).sum ∧
            (∀ o ∈ pm.outcomes, 2/100 < o.price ∧ o.price < 98/100)
        then [Signal.arbDispatch market.id ((pm.outcomes.map (fun o => o.price)).sum)
               (1 - (pm.outcomes.map (fun o => o.price)).sum)]
        else [] := by
  simp only [checkArbSpread, hpm]
  by_cases h5 : now - pm.lastArbCheck < 5000
  · rw [if_pos h5, if_neg (fun hc => absurd hc.1 (by omega))]
  · rw [if_neg h5]
    by_cases h2 : pm.outcomes.length ≠ 2
    · rw [if_pos h2, if_neg (fun hc => absurd hc.2.1 h2)]
    · rw [if_neg h2]
      rw [not_not] at h2
      by_cases hband : (pm.outcomes.map (fun o => o.price)).sum < ARB_SPREAD_THRESHOLD ∧
          (pm.outcomes.map (fun o => o.price)).sum > 8/10
      · rw [if_pos hband]
        by_cases hprof : (1 - (pm.outcomes.map (fun o => o.price)).sum) /
            (pm.outcomes.map (fun o => o.price)).sum < 1/100
        · rw [if_pos hprof,
            if_neg (fun hc => absurd hc.2.2.2.2.1 (not_le.mpr hprof))]
        · rw [if_neg hprof]
          by_cases hlegs : pm.outcomes.all
              (fun o => decide (o.price > 2/100 ∧ o.price < 98/100)) = true
          · have hcond : 5000 ≤ now - pm.lastArbCheck ∧ pm.outcomes.length = 2 ∧
                (pm.outcomes.map (fun o => o.price)).sum < 98/100 ∧
                8/10 < (pm.outcomes.map (fun o => o.price)).sum ∧
                1/100 ≤ (1 - (pm.outcomes.map (fun o => o.price)).sum) /
                  (pm.outcomes.map (fun o => o.price)).sum ∧
                (∀ o ∈ pm.outcomes, 2/100 < o.price ∧ o.price < 98/100) := by
              refine ⟨by omega, h2, hband.1, hband.2, not_lt.mp hprof, ?_⟩
              intro o ho
              have h3 := (List.all_eq_true.mp hlegs) o ho
              rw [decide_eq_true_eq] at h3
              exact h3
            rw [if_pos hlegs, if_pos hcond]
          · rw [if_neg hlegs]
            rw [if_neg ?_]
            intro hc
            apply hlegs
            rw [List.all_eq_true]
            intro o ho
            rw [decide_eq_true_eq]
            exact hc.2.2.2.2.2 o ho
      · rw [if_neg hband]
        rw [if_neg ?_]
        intro hc
        exact hband ⟨hc.2.2.1, hc.2.2.2.1⟩

lemma foldl_exit_no_arb (ex : ExecOracle) (aid : String) (cp : ℚ)
    (mid : String) (tp pf : ℚ) :
    ∀ (l : List Position) (acc : Nat × List Signal),
      Signal.arbDispatch mid tp pf ∈ (l.foldl (instantExitStep ex aid cp) acc).2 →
      Signal.arbDispatch mid tp pf ∈ acc.2 := by
  intro l
  induction l with
  | nil => intro acc h; exact h
  | cons p rest ih =>
      intro acc h
      have h2 := ih (instantExitStep ex aid cp acc p) h
      unfold instantExitStep at h2
      split at h2
      · exact h2
      · simp only [ge_iff_le] at h2
        split at h2
        · simp only [List.mem_append, List.mem_singleton] at h2
          rcases h2 with h2 | h2
          · exact h2
          · cases h2
        · exact h2

lemma arb_not_in_instantExit (ex : ExecOracle) (store : Store)
    (s : ReactorState) (aid : String) (cp : ℚ) (mid : String) (tp pf : ℚ) :
    Signal.arbDispatch mid tp pf ∉ (checkInstantExit ex store s aid cp).2 := by
  intro h
  unfold checkInstantExit at h
  have h2 := foldl_exit_no_arb ex aid cp mid tp pf (getOpenPositions store) (0, []) h
  simp at h2

lemma arb_not_in_priceDrop (ex : ExecOracle) (cfg : Config)
    (s : ReactorState) (aid : String) (cp pp pc : ℚ) (now : ℤ)
    (mid : String) (tp pf : ℚ) :
    Signal.arbDispatch mid tp pf ∉ (handlePriceDrop ex cfg s aid cp pp pc now).2 := by
  intro h
  unfold handlePriceDrop at h
  simp only [ge_iff_le] at h
  split at h
  · simp at h
  · split at h
    · simp at h
    · split at h
      · simp at h
      · split at h
        · simp at h
        · split at h
          · simp at h
          · split at h
            · simp at h
            · split at h
              · simp at h
              · simp at h

end PolyTrader

namespace PolyTrader

open SQLiteStore EventTrader

lemma arb_from_checkArbSpread (ex : ExecOracle) (st : ReactorState)
    (market : Market) (t : ℤ) (mid : String) (tp pf : ℚ)
    (h : Signal.arbDispatch mid tp pf ∈ (checkArbSpread ex st market t).2) :
    ∃ pm2 : MarketPriceMap,
      alookup st.marketPrices market.id = some pm2 ∧
      5000 ≤ t - pm2.lastArbCheck ∧
      pm2.outcomes.length = 2 ∧
      tp = (pm2.outcomes.map (fun o => o.price)).sum ∧
      tp < 98/100 ∧ 8/10 < tp ∧
      1/100 ≤ (1 - tp) / tp ∧
      (∀ o ∈ pm2.outcomes, 2/100 < o.price ∧ o.price < 98/100) ∧
      pf = 1 - tp ∧ mid = market.id := by
  cases hpm2 : alookup st.marketPrices market.id with
  | none =>
      unfold checkArbSpread at h
      rw [hpm2] at h
      simp at h
  | some pm2 =>
      rw [checkArbSpread_signals ex st market t pm2 hpm2] at h
      split at h
      case isTrue hc =>
        simp only [List.mem_singleton, Signal.arbDispatch.injEq] at h
        obtain ⟨h1, h2, h3⟩ := h
        subst h1
        subst h2
        subst h3
        exact ⟨pm2, rfl, hc.1, hc.2.1, rfl, hc.2.2.1, hc.2.2.2.1,
          hc.2.2.2.2.1, hc.2.2.2.2.2, rfl, rfl⟩
      case isFalse => simp at h

/-- C8: the reactor's arbitrage spread check dispatches on a market
exactly when 5 seconds have elapsed since its last arbitrage check, the
market is binary, the summed price lies strictly inside (0.80, 0.98)
(a total of exactly 0.98 is excluded), the profit percent is at least
1 percent, and both leg prices lie strictly inside (0.02, 0.98); and on
a price notification, every arbitrage dispatch the reactor emits passed
exactly those conditions for some tracked price map of the owning
market. -/
theorem reactor_arb_dispatch_band
    (ex : ExecOracle) (s : ReactorState) (market : Market) (now : ℤ)
    (pm : MarketPriceMap)
    (hpm : alookup s.marketPrices market.id = some pm) :
    ((checkArbSpread ex s market now).2
      = if 5000 ≤ now - pm.lastArbCheck ∧ pm.outcomes.length = 2 ∧
            (pm.outcomes.map (fun o => o.price)).sum < 98/100 ∧
            8/10 < (pm.outcomes.map (fun o => o.price)).sum ∧
            1/100 ≤ (1 - (pm.outcomes.map (fun o => o.price)).sum) /
              (pm.outcomes.map (fun o => o.price)).sum ∧
            (∀ o ∈ pm.outcomes, 2/100 < o.price ∧ o.price < 98/100)
        then [Signal.arbDispatch market.id ((pm.outcomes.map (fun o => o.price)).sum)
               (1 - (pm.outcomes.map (fun o => o.price)).sum)]
        else []) ∧
    (∀ (ex2 : ExecOracle) (cfg : Config) (store : Store) (s2 : ReactorState)
       (u : PriceUpdate) (t : ℤ) (mid : String) (tp pf : ℚ),
       Signal.arbDispatch mid tp pf ∈ (handlePriceUpdate ex2 cfg store s2 u t).2 →
       ∃ pm2 : MarketPriceMap,
         5000 ≤ t - pm2.lastArbCheck ∧
         pm2.outcomes.length = 2 ∧
         tp = (pm2.outcomes.map (fun o => o.price)).sum ∧
         tp < 98/100 ∧ 8/10 < tp ∧
         1/100 ≤ (1 - tp) / tp ∧
         (∀ o ∈ pm2.outcomes, 2/100 < o.price ∧ o.price < 98/100) ∧
         pf = 1 - tp ∧
         (∃ mi : Market × Nat,
            alookup s2.assetToMarket u.assetId = some mi ∧ mid = mi.1.id)) := by
  constructor
  · exact checkArbSpread_signals ex s market now pm hpm
  · intro ex2 cfg store s2 u t mid tp pf h
    unfold handlePriceUpdate at h
    by_cases hen : s2.enabled = false
    · rw [if_pos hen] at h
      simp at h
    · rw [if_neg hen] at h
      simp only [ge_iff_le] at h
      cases hmi : alookup s2.assetToMarket u.assetId with
      | none =>
          simp only [hmi] at h
          split at h <;> (try split at h) <;> (try split at h) <;> (try split at h)
          all_goals first
            | exact absurd h (arb_not_in_priceDrop _ _ _ _ _ _ _ _ _ _ _)
            | exact absurd h (arb_not_in_instantExit _ _ _ _ _ _ _ _)
            | simp at h
      | some mi =>
          simp only [hmi] at h
          rw [List.mem_append] at h
          rcases h with h | h
          · split at h <;> (try split at h) <;> (try split at h) <;> (try split at h)
            all_goals first
              | exact absurd h (arb_not_in_priceDrop _ _ _ _ _ _ _ _ _ _ _)
              | exact absurd h (arb_not_in_instantExit _ _ _ _ _ _ _ _)
              | simp at h
          · obtain ⟨pm2, hfound, hc1, hc2, hc3, hc4, hc5, hc6, hc7, hc8, hc9⟩ :=
              arb_from_checkArbSpread ex2 _ mi.1 t mid tp pf h
            exact ⟨pm2, hc1, hc2, hc3, hc4, hc5, hc6, hc7, hc8, mi, rfl, hc9⟩

/-- C8 witness: the spread check on a binary market summing to 0.97999
(just inside the 0.98 bound) with the last check 10 seconds old
dispatches one arbitrage buy. -/
theorem reactor_arb_dispatch_band_witness :
    (checkArbSpread exW rsA marketA 10000).2
      = [Signal.arbDispatch "m1" (97999/100000) (1 - 97999/100000)] := by
  have heq := (reactor_arb_dispatch_band exW rsA marketA 10000 pmA rfl).1
  rw [heq]
  have hsum : ((pmA.outcomes.map (fun o => o.price)).sum) = 97999/100000 := by
    simp [pmA]
    norm_num
  rw [if_pos ?hc]
  case hc =>
    refine ⟨by norm_num [pmA], by simp [pmA], ?_, ?_, ?_, ?_⟩
    · rw [hsum]; norm_num
    · rw [hsum]; norm_num
    · rw [hsum]; norm_num
    · intro o ho
      simp only [pmA, List.mem_cons, List.mem_singleton] at ho
      rcases ho with h | h | h
      · subst h; norm_num
      · subst h; norm_num
      · cases h
  rw [hsum]
  show [Signal.arbDispatch marketA.id (97999/100000) (1 - 97999/100000)] = _
  rfl

end PolyTrader

namespace PolyTrader

open SQLiteStore

/-- C6 counterexample: in real mode the drawdown clause of the claim is
not enforced - with peak 1000 and total value 740 the drawdown percent
is 26, at or above the 25 percent halt threshold, so the claim's
biconditional demands allowed=false, yet the initialised real executor
with balance 100 (above its floor of 20) returns allowed=true. -/
theorem real_canTrade_ignores_drawdown :
    claimedBlocked defaultConfig false
      (RealExecutor.drawdownPercent 1000 740) 100 740 ∧
    (RealExecutor.canTrade defaultConfig true 100).allowed = true := by
  constructor
  · left
    unfold RealExecutor.drawdownPercent defaultConfig
    norm_num
  · unfold RealExecutor.canTrade defaultConfig
    norm_num

/-- C6 amended: paper canTrade blocks exactly on drawdown at or above
the halt threshold or balance under the buffer fraction of total value;
real canTrade blocks exactly when uninitialised or the balance is under
twice the minimum position size (drawdown is not consulted in real
mode); the cited example (peak 1000, total 740, halt 25 percent) blocks
in paper mode; and executeSell is never gated by canTrade - a sell on a
non-pending position always executes and returns a Trade. -/
theorem canTrade_gating (cfg : Config) (ps : PaperExecutor.PaperState)
    (s : Store) (isInit : Bool) (b : ℚ) (sp : List Nat) (pos : Position)
    (price : ℚ) :
    ((PaperExecutor.canTrade cfg ps s).1.allowed = false ↔
       ((PaperExecutor.getPortfolio ps s).1.drawdownPercent ≥ cfg.drawdownHaltPct * 100 ∨
        ps.balance < (PaperExecutor.getPortfolio ps s).1.totalValue * cfg.minBufferPct)) ∧
    ((RealExecutor.canTrade cfg isInit b).allowed = false ↔
       (isInit = false ∨ b < cfg.minPositionUsd * 2)) ∧
    (PaperExecutor.canTrade defaultConfig psEx emptyStore).1.allowed = false ∧
    (pos.id ∉ sp →
      ∃ t, (PaperExecutor.executeSell sp ps s pos price).1 = some t) := by
  refine ⟨?_, ?_, ?_, ?_⟩
  · simp only [PaperExecutor.canTrade]
    by_cases h1 : (PaperExecutor.getPortfolio ps s).1.drawdownPercent ≥
        cfg.drawdownHaltPct * 100
    · rw [if_pos h1]
      simp [h1]
    · rw [if_neg h1]
      by_cases h2 : ps.balance <
          (PaperExecutor.getPortfolio ps s).1.totalValue * cfg.minBufferPct
      · rw [if_pos h2]
        simp [h1, h2]
      · rw [if_neg h2]
        simp [h1, h2]
  · unfold RealExecutor.canTrade
    by_cases h1 : isInit = false
    · rw [if_pos h1]
      simp [h1]
    · rw [if_neg h1]
      by_cases h2 : b < cfg.minPositionUsd * 2
      · rw [if_pos h2]
        simp [h1, h2]
      · rw [if_neg h2]
        simp [h1, h2]
  · simp only [PaperExecutor.canTrade, PaperExecutor.getPortfolio,
      getOpenPositions, getAllocations, psEx, emptyStore, defaultConfig]
    norm_num
  · intro hnot
    unfold PaperExecutor.executeSell
    rw [if_neg hnot]
    exact ⟨_, rfl⟩

end PolyTrader

namespace PolyTrader

open SQLiteStore

/-- C5 counterexample: the claimed single pipeline fails for the
real-money executor. At edge 0.1, entry 0.5, standard confidence, a
snapshot with balance and total value 1000 and drawdown 20 percent (at
or past the 15 percent warning), the claim's pipeline (instantiated
with the real multipliers and the real 0.8 cash fraction) halves to
12.5, but RealExecutor.calculatePositionSize ignores the drawdown and
the budget caps and returns 25. -/
theorem sizing_claim_fails_for_real_mode :
    RealExecutor.calculatePositionSize defaultConfig 1000 oppW = 25 ∧
    claimedPositionSize RealExecutor.kellyFractions (8/10)
      defaultConfig.minPositionUsd defaultConfig.maxPositionUsd
      defaultConfig.maxPositionPct defaultConfig.maxCategoryPct
      defaultConfig.drawdownWarningPct pfEx oppW = 25/2 ∧
    (25 : ℚ) ≠ 25/2 := by
  refine ⟨?_, ?_, by norm_num⟩
  · simp only [RealExecutor.calculatePositionSize, RealExecutor.kellyFractions,
      oppW, defaultConfig]
    norm_num
  · simp only [claimedPositionSize, RealExecutor.kellyFractions, oppW,
      defaultConfig, pfEx, List.find?]
    norm_num

end PolyTrader

namespace PolyTrader

open SQLiteStore

/-- C5 amended: the paper sizer follows the claimed pipeline exactly
(given a nonnegative total value) - zero on nonpositive edge, Kelly
times the paper tier multiplier, capped by the max-position percent of
total value, by the remaining strategy allocation budget and the
remaining category budget, clamped to [min, max] USD, capped at 95
percent of cash, halved past the drawdown warning, floored at 0. The
real-money sizer uses the halved multipliers and follows its own
shorter pipeline (given a nonnegative balance): capped at half the
max-position percent of the cached balance, clamped to [min, half of
max] USD, capped at 80 percent of balance, floored at 0 - with no
allocation or category caps and no drawdown halving. -/
theorem calculatePositionSize_pipeline (cfg : Config)
    (ps : PaperExecutor.PaperState) (s : Store) (opp : Opportunity)
    (b : ℚ) (htv : 0 ≤ (PaperExecutor.getPortfolio ps s).1.totalValue)
    (hb : 0 ≤ b) :
    PaperExecutor.calculatePositionSize cfg ps s opp
      = claimedPositionSize PaperExecutor.kellyFractions (95/100)
          cfg.minPositionUsd cfg.maxPositionUsd cfg.maxPositionPct
          cfg.maxCategoryPct cfg.drawdownWarningPct
          (PaperExecutor.getPortfolio ps s).1 opp ∧
    RealExecutor.calculatePositionSize cfg b opp
      = claimedRealPositionSize cfg b opp := by
  constructor
  · simp only [PaperExecutor.calculatePositionSize, claimedPositionSize]
    by_cases he : opp.edge ≤ 0
    · rw [if_pos he, if_pos he]
    · rw [if_neg he, if_neg he]
      rw [show (PaperExecutor.getPortfolio ps s).1.balance = ps.balance from rfl]
      cases hfind : (PaperExecutor.getPortfolio ps s).1.allocations.find?
          (fun a => a.strategy = opp.strategy) with
      | none =>
          simp only [ge_iff_le]
          rw [min_mul_of_nonneg _ _ htv,
            mul_comm ((PaperExecutor.getPortfolio ps s).1.totalValue) cfg.maxCategoryPct,
            mul_comm ps.balance ((95:ℚ)/100), mul_one_div]
      | some a =>
          simp only [ge_iff_le]
          rw [min_mul_of_nonneg _ _ htv,
            mul_comm ((PaperExecutor.getPortfolio ps s).1.totalValue) a.currentWeight,
            mul_comm ((PaperExecutor.getPortfolio ps s).1.totalValue) cfg.maxCategoryPct,
            mul_comm ps.balance ((95:ℚ)/100), mul_one_div]
  · simp only [RealExecutor.calculatePositionSize, claimedRealPositionSize]
    by_cases he : opp.edge ≤ 0
    · rw [if_pos he, if_pos he]
    · rw [if_neg he, if_neg he]
      rw [min_mul_of_nonneg _ _ hb, mul_one_div cfg.maxPositionPct 2,
        mul_one_div cfg.maxPositionUsd 2, mul_comm b ((8:ℚ)/10)]

/-- C5 amended witness: the pipeline equalities at the default
configuration, a fresh paper state over the empty store, balance 1000
and the concrete standard-confidence opportunity. -/
theorem calculatePositionSize_pipeline_witness :
    PaperExecutor.calculatePositionSize defaultConfig
        { balance := 1000, peakValue := 1000, startingBalance := 1000 }
        emptyStore oppW
      = claimedPositionSize PaperExecutor.kellyFractions (95/100)
          defaultConfig.minPositionUsd defaultConfig.maxPositionUsd
          defaultConfig.maxPositionPct defaultConfig.maxCategoryPct
          defaultConfig.drawdownWarningPct
          (PaperExecutor.getPortfolio
            { balance := 1000, peakValue := 1000, startingBalance := 1000 }
            emptyStore).1 oppW ∧
    RealExecutor.calculatePositionSize defaultConfig 1000 oppW
      = claimedRealPositionSize defaultConfig 1000 oppW :=
  calculatePositionSize_pipeline defaultConfig
    { balance := 1000, peakValue := 1000, startingBalance := 1000 }
    emptyStore oppW 1000
    (by simp only [PaperExecutor.getPortfolio, getOpenPositions, emptyStore]; norm_num)
    (by norm_num)

end PolyTrader

namespace PolyTrader

open SQLiteStore PaperExecutor

lemma createArbLegs_shares (marketId category : String)
    (net tot totalCost feeShare : ℚ) (s : Store) (outs : List ArbOutcome)
    (hprices : ∀ o ∈ outs, o.price ≠ 0) :
    ∀ p ∈ (createArbLegs marketId category net tot totalCost feeShare s outs).1,
      p.shares = net / totalCost := by
  induction outs generalizing s with
  | nil => intro p hp; simp [createArbLegs] at hp
  | cons o rest ih =>
      intro p hp
      have hop : o.price ≠ 0 := hprices o (List.mem_cons_self o rest)
      unfold createArbLegs at hp
      simp only [List.mem_cons] at hp
      rcases hp with hp | hp
      · subst hp
        show net * o.price / totalCost / o.price = net / totalCost
        by_cases ht : totalCost = 0
        · rw [ht, div_zero, div_zero, zero_div]
        · field_simp
          ring
      · exact ih _ (fun o2 ho2 => hprices o2 (List.mem_cons_of_mem o ho2)) p hp

/-- C10: whenever a paper arbitrage buy creates positions, every
position in the basket holds the same number of shares, equal to
(totalInvestment - fees) / totalCost where totalInvestment is
sets x totalCost for a whole number of sets at least 1 - the property
that makes the one-dollar-per-set payout uniform across outcomes. The
hypothesis excludes zero-priced legs, where the source would produce
NaN shares. -/
theorem arb_buy_equal_shares (cfg : Config) (ps : PaperExecutor.PaperState)
    (s : Store) (marketId category : String) (outs : List ArbOutcome)
    (totalCost : ℚ)
    (hprices : ∀ o ∈ outs, o.price ≠ 0) :
    ((PaperExecutor.executeArbitrageBuy cfg ps s marketId category outs totalCost).1 ≠ [] →
      ∃ n : ℤ, 1 ≤ n ∧
        ∀ p ∈ (PaperExecutor.executeArbitrageBuy cfg ps s marketId category outs totalCost).1,
          p.shares = ((n : ℚ) * totalCost - (n : ℚ) * totalCost * PaperExecutor.FEE_RATE)
            / totalCost) ∧
    (∀ p ∈ (PaperExecutor.executeArbitrageBuy cfg ps s marketId category outs totalCost).1,
      ∀ q ∈ (PaperExecutor.executeArbitrageBuy cfg ps s marketId category outs totalCost).1,
        p.shares = q.shares) := by
  by_cases hct : (PaperExecutor.canTrade cfg ps s).1.allowed = false
  · have hres : (PaperExecutor.executeArbitrageBuy cfg ps s marketId category outs totalCost).1 = [] := by
      unfold PaperExecutor.executeArbitrageBuy
      rw [if_pos hct]
    constructor
    · intro hne; exact absurd hres hne
    · intro p hp; rw [hres] at hp; simp at hp
  · by_cases hsets : (⌊arbMaxSize cfg
        (PaperExecutor.getPortfolio (PaperExecutor.canTrade cfg ps s).2 s).1
        (PaperExecutor.getPortfolio (PaperExecutor.canTrade cfg ps s).2 s).2.balance
          / totalCost⌋ : ℤ) < 1
    · have hres : (PaperExecutor.executeArbitrageBuy cfg ps s marketId category outs totalCost).1 = [] := by
        unfold PaperExecutor.executeArbitrageBuy
        rw [if_neg hct]
        simp only [ge_iff_le]
        rw [if_pos hsets]
      constructor
      · intro hne; exact absurd hres hne
      · intro p hp; rw [hres] at hp; simp at hp
    · have hres : (PaperExecutor.executeArbitrageBuy cfg ps s marketId category outs totalCost).1
          = (createArbLegs marketId category
              ((⌊arbMaxSize cfg
                  (PaperExecutor.getPortfolio (PaperExecutor.canTrade cfg ps s).2 s).1
                  (PaperExecutor.getPortfolio (PaperExecutor.canTrade cfg ps s).2 s).2.balance
                    / totalCost⌋ : ℚ) * totalCost
                - (⌊arbMaxSize cfg
                    (PaperExecutor.getPortfolio (PaperExecutor.canTrade cfg ps s).2 s).1
                    (PaperExecutor.getPortfolio (PaperExecutor.canTrade cfg ps s).2 s).2.balance
                      / totalCost⌋ : ℚ) * totalCost * PaperExecutor.FEE_RATE)
              ((⌊arbMaxSize cfg
                  (PaperExecutor.getPortfolio (PaperExecutor.canTrade cfg ps s).2 s).1
                  (PaperExecutor.getPortfolio (PaperExecutor.canTrade cfg ps s).2 s).2.balance
                    / totalCost⌋ : ℚ) * totalCost)
              totalCost
              ((⌊arbMaxSize cfg
                  (PaperExecutor.getPortfolio (PaperExecutor.canTrade cfg ps s).2 s).1
                  (PaperExecutor.getPortfolio (PaperExecutor.canTrade cfg ps s).2 s).2.balance
                    / totalCost⌋ : ℚ) * totalCost * PaperExecutor.FEE_RATE
                / (outs.length : ℚ))
              s outs).1 := by
        unfold PaperExecutor.executeArbitrageBuy
        rw [if_neg hct]
        simp only [ge_iff_le]
        rw [if_neg hsets]
      constructor
      · intro hne
        refine ⟨⌊arbMaxSize cfg
            (PaperExecutor.getPortfolio (PaperExecutor.canTrade cfg ps s).2 s).1
            (PaperExecutor.getPortfolio (PaperExecutor.canTrade cfg ps s).2 s).2.balance
              / totalCost⌋, by omega, ?_⟩
        intro p hp
        rw [hres] at hp
        exact createArbLegs_shares marketId category _ _ totalCost _ s outs hprices p hp
      · intro p hp q hq
        rw [hres] at hp hq
        rw [createArbLegs_shares marketId category _ _ totalCost _ s outs hprices p hp,
          createArbLegs_shares marketId category _ _ totalCost _ s outs hprices q hq]

/-- C10 witness: a concrete arbitrage buy over two 0.25-priced legs of
one market creates a nonempty basket whose members the theorem covers. -/
theorem arb_buy_equal_shares_witness :
    ((PaperExecutor.executeArbitrageBuy defaultConfig
        { balance := 1000, peakValue := 1000, startingBalance := 1000 }
        emptyStore "m1" "politics"
        [{ name := "A", price := 1/4, tokenId := "tA" },
         { name := "A", price := 1/4, tokenId := "tB" }] (1/2)).1 ≠ [] →
      ∃ n : ℤ, 1 ≤ n ∧
        ∀ p ∈ (PaperExecutor.executeArbitrageBuy defaultConfig
            { balance := 1000, peakValue := 1000, startingBalance := 1000 }
            emptyStore "m1" "politics"
            [{ name := "A", price := 1/4, tokenId := "tA" },
             { name := "A", price := 1/4, tokenId := "tB" }] (1/2)).1,
          p.shares = ((n : ℚ) * (1/2) - (n : ℚ) * (1/2) * PaperExecutor.FEE_RATE) / (1/2)) ∧
    (∀ p ∈ (PaperExecutor.executeArbitrageBuy defaultConfig
        { balance := 1000, peakValue := 1000, startingBalance := 1000 }
        emptyStore "m1" "politics"
        [{ name := "A", price := 1/4, tokenId := "tA" },
         { name := "A", price := 1/4, tokenId := "tB" }] (1/2)).1,
      ∀ q ∈ (PaperExecutor.executeArbitrageBuy defaultConfig
          { balance := 1000, peakValue := 1000, startingBalance := 1000 }
          emptyStore "m1" "politics"
          [{ name := "A", price := 1/4, tokenId := "tA" },
           { name := "A", price := 1/4, tokenId := "tB" }] (1/2)).1,
        p.shares = q.shares) :=
  arb_buy_equal_shares defaultConfig
    { balance := 1000, peakValue := 1000, startingBalance := 1000 }
    emptyStore "m1" "politics"
    [{ name := "A", price := 1/4, tokenId := "tA" },
     { name := "A", price := 1/4, tokenId := "tB" }] (1/2)
    (by intro o ho; simp at ho; rcases ho with h | h <;> subst h <;> norm_num)

end PolyTrader

namespace PolyTrader

open SQLiteStore UnifiedExecutor PaperExecutor

lemma atMostOneOpen_of_positions_eq (s s2 : Store)
    (h : s2.positions = s.positions) (hinv : AtMostOneOpen s) :
    AtMostOneOpen s2 := by
  intro p hp q hq
  unfold getOpenPositions at hp hq
  rw [h] at hp hq
  exact hinv p hp q hq

lemma atMostOneOpen_append (s s2 : Store) (newPos : Position)
    (hpos : s2.positions = s.positions ++ [newPos])
    (hinv : AtMostOneOpen s)
    (hkey : ∀ p ∈ getOpenPositions s,
      ¬(p.marketId = newPos.marketId ∧ p.side = newPos.side)) :
    AtMostOneOpen s2 := by
  intro p hp q hq hm hside
  unfold getOpenPositions at hp hq
  rw [hpos, List.filter_append] at hp hq
  rw [List.mem_append] at hp hq
  rcases hp with hp | hp <;> rcases hq with hq | hq
  · exact hinv p hp q hq hm hside
  · have hq2 : q = newPos := by
      rcases List.mem_filter.mp hq with ⟨hq2, -⟩
      simpa using hq2
    subst hq2
    exact absurd ⟨hm, hside⟩ (hkey p hp)
  · have hp2 : p = newPos := by
      rcases List.mem_filter.mp hp with ⟨hp2, -⟩
      simpa using hp2
    subst hp2
    exact absurd ⟨hm.symm, hside.symm⟩ (hkey q hq)
  · have hp2 : p = newPos := by
      rcases List.mem_filter.mp hp with ⟨hp2, -⟩
      simpa using hp2
    have hq2 : q = newPos := by
      rcases List.mem_filter.mp hq with ⟨hq2, -⟩
      simpa using hq2
    rw [hp2, hq2]

lemma paperExecuteBuy_store_cases (cfg : Config)
    (ps : PaperExecutor.PaperState) (s : Store) (opp : Opportunity) :
    (PaperExecutor.executeBuy cfg ps s opp).2.2.positions = s.positions ∨
    (∃ newPos : Position,
      (PaperExecutor.executeBuy cfg ps s opp).2.2.positions
        = s.positions ++ [newPos] ∧
      newPos.marketId = opp.marketId ∧ newPos.side = opp.side ∧
      newPos.status = PosStatus.opened) := by
  unfold PaperExecutor.executeBuy
  simp only [ge_iff_le]
  split
  · left; rfl
  · split
    · left; rfl
    · right
      exact ⟨_, rfl, rfl, rfl, rfl⟩

lemma buyEntry_dispatched_no_open (gs : GatewayState) (s : Store)
    (opp : Opportunity) (now : ℤ) (gs1 : GatewayState)
    (hentry : executeBuyEntry gs s opp now = BuyEntry.dispatched gs1) :
    ∀ p ∈ getOpenPositions s, ¬(p.marketId = opp.marketId ∧ p.side = opp.side) := by
  intro p hp hbad
  unfold executeBuyEntry at hentry
  rw [if_pos ?hany] at hentry
  case hany =>
    rw [List.any_eq_true]
    exact ⟨p, hp, by rw [decide_eq_true_eq]; exact hbad⟩
  cases hentry

/-- C3 amended: the gateway executeBuy preserves the
at-most-one-open-position-per-(marketId, side) invariant in paper mode:
it rejects whenever an open position for the key exists, and a
dispatched buy creates exactly one open position carrying the
opportunity's key. The arbitrage buy path performs no such check and
can break the invariant (see the counterexample). -/
theorem executeBuy_preserves_unique_open (cfg : Config)
    (gs : GatewayState) (ps : PaperExecutor.PaperState) (s : Store)
    (opp : Opportunity) (now : ℤ)
    (hinv : AtMostOneOpen s) :
    AtMostOneOpen (executeBuyPaper cfg gs ps s opp now).2.2.2 := by
  unfold executeBuyPaper
  cases hentry : executeBuyEntry gs s opp now with
  | rejected => exact hinv
  | dispatched gs1 =>
      have hnoopen := buyEntry_dispatched_no_open gs s opp now gs1 hentry
      show AtMostOneOpen (PaperExecutor.executeBuy cfg ps s opp).2.2
      rcases paperExecuteBuy_store_cases cfg ps s opp with hsame | ⟨newPos, happ, hm, hside, -⟩
      · exact atMostOneOpen_of_positions_eq s _ hsame hinv
      · refine atMostOneOpen_append s _ newPos happ hinv ?_
        intro p hp hbad
        exact hnoopen p hp ⟨by rw [hbad.1, hm], by rw [hbad.2, hside]⟩

/-- C3 amended witness: preservation at the empty store (trivially
satisfying the invariant) under a concrete buy. -/
theorem executeBuy_preserves_unique_open_witness :
    AtMostOneOpen (executeBuyPaper defaultConfig gsW
      { balance := 1000, peakValue := 1000, startingBalance := 1000 }
      emptyStore oppW 1000).2.2.2 :=
  executeBuy_preserves_unique_open defaultConfig gsW
    { balance := 1000, peakValue := 1000, startingBalance := 1000 }
    emptyStore oppW 1000
    (by intro p hp; simp [getOpenPositions, emptyStore] at hp)

end PolyTrader

namespace PolyTrader

open SQLiteStore PaperExecutor

lemma createArbLegs_two (mid cat : String) (net tot tc fs : ℚ)
    (s : Store) (o1 o2 : ArbOutcome) (hname : o1.name = o2.name) :
    ∃ p0 p1 : Position,
      (createArbLegs mid cat net tot tc fs s [o1, o2]).1 = [p0, p1] ∧
      p0.marketId = mid ∧ p1.marketId = mid ∧
      p0.side = p1.side ∧
      p0.status = PosStatus.opened ∧ p1.status = PosStatus.opened ∧
      p0.id = s.nextId ∧ p1.id = s.nextId + 1 ∧
      (createArbLegs mid cat net tot tc fs s [o1, o2]).2.positions
        = (s.positions ++ [p0]) ++ [p1] := by
  refine ⟨_, _, rfl, rfl, rfl, ?_, rfl, rfl, rfl, rfl, rfl⟩
  show (if o1.name.toUpper = "YES" then Side.yes else Side.no)
    = (if o2.name.toUpper = "YES" then Side.yes else Side.no)
  rw [hname]

/-- C3 counterexample: from the empty store (where the invariant holds),
a paper arbitrage buy on a market whose two outcomes are not named
YES/NO creates two distinct open positions with the same
(marketId, side) pair, so executeArbitrageBuy does not preserve the
at-most-one-open-position invariant. -/
theorem arb_buy_breaks_unique_open :
    AtMostOneOpen emptyStore ∧
    ¬ AtMostOneOpen (PaperExecutor.executeArbitrageBuy defaultConfig psB
        emptyStore "m1" "politics" [oA, oB] (1/2)).2.2 := by
  constructor
  · intro p hp
    simp [getOpenPositions, emptyStore] at hp
  · have hct : ¬((PaperExecutor.canTrade defaultConfig psB emptyStore).1.allowed = false) := by
      norm_num [PaperExecutor.canTrade, PaperExecutor.getPortfolio,
        getOpenPositions, getAllocations, emptyStore, psB, defaultConfig]
    have hq : (1:ℚ) ≤ arbMaxSize defaultConfig
        (PaperExecutor.getPortfolio (PaperExecutor.canTrade defaultConfig psB emptyStore).2 emptyStore).1
        (PaperExecutor.getPortfolio (PaperExecutor.canTrade defaultConfig psB emptyStore).2 emptyStore).2.balance
        / (1/2) := by
      norm_num [arbMaxSize, PaperExecutor.getPortfolio, PaperExecutor.canTrade,
        getOpenPositions, getAllocations, emptyStore, psB, defaultConfig]
    have hsetsneg : ¬((⌊arbMaxSize defaultConfig
        (PaperExecutor.getPortfolio (PaperExecutor.canTrade defaultConfig psB emptyStore).2 emptyStore).1
        (PaperExecutor.getPortfolio (PaperExecutor.canTrade defaultConfig psB emptyStore).2 emptyStore).2.balance
          / (1/2)⌋ : ℤ) < 1) := by
      rw [not_lt]
      exact Int.le_floor.mpr (by exact_mod_cast hq)
    have hstore :
        (PaperExecutor.executeArbitrageBuy defaultConfig psB
          emptyStore "m1" "politics" [oA, oB] (1/2)).2.2
        = (createArbLegs "m1" "politics"
            ((⌊arbMaxSize defaultConfig
                (PaperExecutor.getPortfolio (PaperExecutor.canTrade defaultConfig psB emptyStore).2 emptyStore).1
                (PaperExecutor.getPortfolio (PaperExecutor.canTrade defaultConfig psB emptyStore).2 emptyStore).2.balance
                  / (1/2)⌋ : ℚ) * (1/2)
              - (⌊arbMaxSize defaultConfig
                  (PaperExecutor.getPortfolio (PaperExecutor.canTrade defaultConfig psB emptyStore).2 emptyStore).1
                  (PaperExecutor.getPortfolio (PaperExecutor.canTrade defaultConfig psB emptyStore).2 emptyStore).2.balance
                    / (1/2)⌋ : ℚ) * (1/2) * PaperExecutor.FEE_RATE)
            ((⌊arbMaxSize defaultConfig
                (PaperExecutor.getPortfolio (PaperExecutor.canTrade defaultConfig psB emptyStore).2 emptyStore).1
                (PaperExecutor.getPortfolio (PaperExecutor.canTrade defaultConfig psB emptyStore).2 emptyStore).2.balance
                  / (1/2)⌋ : ℚ) * (1/2))
            (1/2)
            ((⌊arbMaxSize defaultConfig
                (PaperExecutor.getPortfolio (PaperExecutor.canTrade defaultConfig psB emptyStore).2 emptyStore).1
                (PaperExecutor.getPortfolio (PaperExecutor.canTrade defaultConfig psB emptyStore).2 emptyStore).2.balance
                  / (1/2)⌋ : ℚ) * (1/2) * PaperExecutor.FEE_RATE
              / (([oA, oB] : List PaperExecutor.ArbOutcome).length : ℚ))
            emptyStore [oA, oB]).2 := by
      unfold PaperExecutor.executeArbitrageBuy
      rw [if_neg hct]
      simp only [ge_iff_le]
      rw [if_neg hsetsneg]
    set net : ℚ := (⌊arbMaxSize defaultConfig
        (PaperExecutor.getPortfolio (PaperExecutor.canTrade defaultConfig psB emptyStore).2 emptyStore).1
        (PaperExecutor.getPortfolio (PaperExecutor.canTrade defaultConfig psB emptyStore).2 emptyStore).2.balance
          / (1/2)⌋ : ℚ) * (1/2)
      - (⌊arbMaxSize defaultConfig
          (PaperExecutor.getPortfolio (PaperExecutor.canTrade defaultConfig psB emptyStore).2 emptyStore).1
          (PaperExecutor.getPortfolio (PaperExecutor.canTrade defaultConfig psB emptyStore).2 emptyStore).2.balance
            / (1/2)⌋ : ℚ) * (1/2) * PaperExecutor.FEE_RATE
    set tot : ℚ := (⌊arbMaxSize defaultConfig
        (PaperExecutor.getPortfolio (PaperExecutor.canTrade defaultConfig psB emptyStore).2 emptyStore).1
        (PaperExecutor.getPortfolio (PaperExecutor.canTrade defaultConfig psB emptyStore).2 emptyStore).2.balance
          / (1/2)⌋ : ℚ) * (1/2)
    set fs : ℚ := (⌊arbMaxSize defaultConfig
        (PaperExecutor.getPortfolio (PaperExecutor.canTrade defaultConfig psB emptyStore).2 emptyStore).1
        (PaperExecutor.getPortfolio (PaperExecutor.canTrade defaultConfig psB emptyStore).2 emptyStore).2.balance
          / (1/2)⌋ : ℚ) * (1/2) * PaperExecutor.FEE_RATE
      / (([oA, oB] : List PaperExecutor.ArbOutcome).length : ℚ)
    obtain ⟨p0, p1, hlist, hm0, hm1, hside, hst0, hst1, hid0, hid1, hpos⟩ :=
      createArbLegs_two "m1" "politics" net tot (1/2) fs emptyStore oA oB rfl
    intro hinv
    have hp0 : p0 ∈ getOpenPositions (PaperExecutor.executeArbitrageBuy defaultConfig psB
        emptyStore "m1" "politics" [oA, oB] (1/2)).2.2 := by
      unfold getOpenPositions
      rw [hstore, hpos]
      refine List.mem_filter.mpr ⟨?_, by simp [hst0]⟩
      simp
    have hp1 : p1 ∈ getOpenPositions (PaperExecutor.executeArbitrageBuy defaultConfig psB
        emptyStore "m1" "politics" [oA, oB] (1/2)).2.2 := by
      unfold getOpenPositions
      rw [hstore, hpos]
      refine List.mem_filter.mpr ⟨?_, by simp [hst1]⟩
      simp
    have heq := hinv p0 hp0 p1 hp1 (hm0.trans hm1.symm) hside
    have : p0.id = p1.id := by rw [heq]
    rw [hid0, hid1] at this
    simp [emptyStore] at this

end PolyTrader
